import Mathlib

/-!
Shallow embedding of the multi-account selection, failover and state-tracking
core of `opencode-openai-multi-auth`:

* `src/lib/accounts/types.ts`   — data model (`ManagedAccount`, config)
* `src/lib/accounts/manager.ts` — `AccountManager` (load, add, select, mark, remove, refresh)
* the plugin entry point (orchestrator `executeRequest` / custom `fetch`)
* the usage-snapshot tracker (`CodexStatusManager.saveToDisk` merge policy)

JavaScript conventions are modelled explicitly: epoch-millisecond times are
`Nat`, optional fields are `Option`, and JS truthiness of optional
numbers/strings is captured by `natTruthy` / `strTruthy` (0 and "" are falsy).
External collaborators (JWT decode, token refresh, the upstream transport,
the filesystem) are passed in as explicit parameters or oracles.
-/

namespace OCMA

/-- JS truthiness of an optional number: `undefined` and `0` are falsy. -/
def natTruthy : Option Nat → Bool
  | none => false
  | some n => n != 0

/-- JS truthiness of an optional string: `undefined` and `""` are falsy. -/
def strTruthy : Option String → Bool
  | none => false
  | some s => s != ""

/-- `pat` is a leading segment of `s` (character lists). -/
def charsStartWith : List Char → List Char → Bool
  | [], _ => true
  | _ :: _, [] => false
  | a :: as, b :: bs => a == b && charsStartWith as bs

/-- `pat` occurs somewhere inside `s` (character lists). -/
def charsContain (pat : List Char) : List Char → Bool
  | [] => charsStartWith pat []
  | c :: rest => charsStartWith pat (c :: rest) || charsContain pat rest

/-- JS `s.includes(pat)`. -/
def strIncludes (s pat : String) : Bool :=
  charsContain pat.toList s.toList

/-! ## Data model (`src/lib/accounts/types.ts`) -/

/-- `ManagedAccount`. `parts.refreshToken` is flattened to `refreshToken`;
`rateLimitResets : Record<string, number>` is an association list. -/
structure Account where
  index : Nat
  email : Option String := none
  userId : Option String := none
  accountId : Option String := none
  planType : Option String := none
  addedAt : Nat := 0
  lastUsed : Option Nat := none
  refreshToken : String
  access : Option String := none
  expires : Option Nat := none
  rateLimitResets : List (String × Nat) := []
  globalRateLimitReset : Option Nat := none
  consecutiveFailures : Nat := 0
  isRefreshing : Bool := false
  lastRefreshError : Option String := none
deriving Repr, DecidableEq, Inhabited

/-- Lookup in a `Record<string, number>` (first binding wins). -/
def rlGet (m : List (String × Nat)) (k : String) : Option Nat :=
  (m.find? (fun p => p.1 == k)).map Prod.snd

/-- JS `obj[k] = v` on a `Record<string, number>`: overwrite in place, or append. -/
def rlSet (m : List (String × Nat)) (k : String) (v : Nat) : List (String × Nat) :=
  if m.any (fun p => p.1 == k) then
    m.map (fun p => if p.1 == k then (k, v) else p)
  else
    m ++ [(k, v)]

inductive Strategy
  | sticky
  | roundRobin
  | hybrid
deriving Repr, DecidableEq

/-- `MultiAccountConfig`. -/
structure MultiAccountConfig where
  accountSelectionStrategy : Strategy
  debug : Bool
  quietMode : Bool
  pidOffsetEnabled : Bool
  proactiveRefreshThresholdMs : Nat
  removeOnInvalidGrant : Bool
  perModelRateLimits : Bool
deriving Repr, DecidableEq

/-- `DEFAULT_MULTI_ACCOUNT_CONFIG`. -/
def DEFAULT_MULTI_ACCOUNT_CONFIG : MultiAccountConfig where
  accountSelectionStrategy := .sticky
  debug := false
  quietMode := false
  pidOffsetEnabled := false
  proactiveRefreshThresholdMs := 5 * 60 * 1000
  removeOnInvalidGrant := true
  perModelRateLimits := true

/-- The mutable fields of the `AccountManager` class. -/
structure AccountManager where
  accounts : List Account
  activeIndex : Nat
  roundRobinCursor : Nat
  strategyInitialized : Bool
  config : MultiAccountConfig
deriving Repr, DecidableEq

/-- Claims decoded from a JWT access token: the
`https://api.openai.com/auth` claim object and the profile email.
JWT decoding itself is an external pure collaborator. -/
structure JwtPayload where
  accountId : Option String := none
  userId : Option String := none
  planType : Option String := none
  profileEmail : Option String := none

/-! ## `loadFromDisk` (manager.ts, lines 38–56)

The filesystem read plus `JSON.parse` is modelled by a `DiskRead` value:
the file may be missing, fail to parse, or parse to data whose `version`
field and `accounts` array-ness are inspected. -/

/-- Parsed content of `openai-accounts.json` as `JSON.parse` delivers it. -/
structure StorageData where
  version : Option Nat
  accountsIsArray : Bool
  accounts : List Account
  activeAccountIndex : Option Nat
deriving Repr, DecidableEq

inductive DiskRead
  | missing
  | parseError
  | parsed (d : StorageData)
deriving Repr, DecidableEq

/-- `loadFromDisk`: total (the `try`/`catch` means it never throws). -/
def loadFromDisk (mgr : AccountManager) (r : DiskRead) : AccountManager :=
  match r with
  | .missing => mgr
  | .parseError =>
    { mgr with accounts := [], activeIndex := 0, roundRobinCursor := 0,
               strategyInitialized := false }
  | .parsed d =>
    if d.version == some 1 && d.accountsIsArray then
      { mgr with accounts := d.accounts,
                 activeIndex := if natTruthy d.activeAccountIndex
                                then d.activeAccountIndex.getD 0 else 0,
                 strategyInitialized := false }
    else mgr

/-! ## Account selection (manager.ts, lines 190–310) -/

/-- JS `t && t > now` for an optional reset timestamp. -/
def resetActive (r : Option Nat) (now : Nat) : Bool :=
  match r with
  | some t => now < t
  | none => false

/-- `isAccountAvailable` (manager.ts, lines 266–285). -/
def isAccountAvailable (cfg : MultiAccountConfig) (account : Account)
    (model : Option String) (now : Nat) : Bool :=
  if 3 ≤ account.consecutiveFailures then false
  else if resetActive account.globalRateLimitReset now then false
  else if strTruthy model && cfg.perModelRateLimits &&
          resetActive (rlGet account.rateLimitResets (model.getD "")) now then false
  else true

/-- `normalizeIndex` (manager.ts, lines 231–235). -/
def normalizeIndex (accounts : List Account) (index : Nat) : Nat :=
  if accounts.length = 0 then 0
  else if index < accounts.length then index
  else 0

/-- `initializeStrategyState` (manager.ts, lines 237–264); `pid` is
`process.pid`.  The `saveToDisk` call in the hybrid branch is a pure
persistence side effect and does not change the in-memory state. -/
def initStrategyState (mgr : AccountManager) (pid : Nat) : AccountManager :=
  if mgr.strategyInitialized then mgr
  else if mgr.accounts.length = 0 then
    { mgr with activeIndex := 0, roundRobinCursor := 0, strategyInitialized := true }
  else
    let ai0 := normalizeIndex mgr.accounts mgr.activeIndex
    let ai1 := if mgr.config.accountSelectionStrategy == .hybrid &&
                  decide (1 < mgr.accounts.length)
               then (ai0 + 1) % mgr.accounts.length else ai0
    let ai2 := if mgr.config.pidOffsetEnabled && decide (1 < mgr.accounts.length)
               then (ai1 + pid % mgr.accounts.length) % mgr.accounts.length else ai1
    { mgr with activeIndex := ai2, roundRobinCursor := ai2, strategyInitialized := true }

/-- The `while (attempts < this.accounts.length)` scan of
`getNextAvailableAccount` (manager.ts, lines 204–218): returns the array
position of the first available account, scanning `remaining` offsets
starting at offset `attempts` from `startIndex`, wrapping. -/
def scanAux (cfg : MultiAccountConfig) (accounts : List Account)
    (model : Option String) (now startIndex attempts : Nat) : Nat → Option Nat
  | 0 => none
  | remaining + 1 =>
    let idx := (startIndex + attempts) % accounts.length
    if isAccountAvailable cfg (accounts.getD idx default) model now then some idx
    else scanAux cfg accounts model now startIndex (attempts + 1) remaining

/-- The combined reset time used by the fallback:
`max(globalRateLimitReset || 0, rateLimitResets[model] || 0)`
(manager.ts, lines 297–301). -/
def fallbackResetTime (cfg : MultiAccountConfig) (account : Account)
    (model : Option String) : Nat :=
  let g := account.globalRateLimitReset.getD 0
  if strTruthy model && cfg.perModelRateLimits then
    max g ((rlGet account.rateLimitResets (model.getD "")).getD 0)
  else g

/-- The `for (const account of this.accounts)` loop of
`getLeastRateLimitedAccount` (manager.ts, lines 294–307).  The accumulator
holds the current best as (array position, account, its reset time);
`none` stands for `earliestReset = Infinity`. -/
def leastLoop (cfg : MultiAccountConfig) (model : Option String) :
    List Account → Nat → Option (Nat × Account × Nat) → Option (Nat × Account × Nat)
  | [], _, best => best
  | a :: rest, pos, best =>
    if 3 ≤ a.consecutiveFailures then leastLoop cfg model rest (pos + 1) best
    else
      let rt := fallbackResetTime cfg a model
      match best with
      | none => leastLoop cfg model rest (pos + 1) (some (pos, a, rt))
      | some (_, _, r) =>
        if rt < r then leastLoop cfg model rest (pos + 1) (some (pos, a, rt))
        else leastLoop cfg model rest (pos + 1) best

/-- `getLeastRateLimitedAccount` (manager.ts, lines 287–310). -/
def getLeastRateLimitedAccount (mgr : AccountManager) (model : Option String) :
    Option Account :=
  if mgr.accounts.length = 0 then none
  else (leastLoop mgr.config model mgr.accounts 0 none).map (fun x => x.2.1)

/-- `getNextAvailableAccount` (manager.ts, lines 190–229).  Returns the
selected account (a reference into the updated pool) together with the
mutated manager; `now` is `Date.now()` and `pid` is `process.pid`. -/
def getNextAvailableAccount (mgr : AccountManager) (model : Option String)
    (now pid : Nat) : Option Account × AccountManager :=
  if mgr.accounts.length = 0 then (none, mgr)
  else
    let mgr := initStrategyState mgr pid
    let startIndex := if mgr.config.accountSelectionStrategy == .roundRobin
                      then mgr.roundRobinCursor else mgr.activeIndex
    match scanAux mgr.config mgr.accounts model now startIndex 0 mgr.accounts.length with
    | some idx =>
      let account := { mgr.accounts.getD idx default with lastUsed := some now }
      (some account,
       { mgr with
           activeIndex := idx,
           roundRobinCursor := if mgr.config.accountSelectionStrategy == .roundRobin
                               then (idx + 1) % mgr.accounts.length
                               else mgr.roundRobinCursor,
           accounts := mgr.accounts.set idx account })
    | none =>
      match leastLoop mgr.config model mgr.accounts 0 none with
      | some (pos, fb, _) =>
        let fb := { fb with lastUsed := some now }
        (some fb,
         { mgr with
             activeIndex := fb.index,
             roundRobinCursor := if mgr.config.accountSelectionStrategy == .roundRobin
                                 then (fb.index + 1) % mgr.accounts.length
                                 else mgr.roundRobinCursor,
             accounts := mgr.accounts.set pos fb })
      | none => (none, mgr)

/-! ## Mutating account state

In JS each selected account is a live reference into `this.accounts`; the
manager methods mutate it in place.  The embedding carries the account value
alongside the manager and applies every mutation both to the carried value
and to the (unique, `index`-matched) pool entry. -/

/-- JS `Array.prototype.findIndex`. -/
def jsFindIndex {α : Type} (p : α → Bool) : List α → Option Nat
  | [] => none
  | a :: rest => if p a then some 0 else (jsFindIndex p rest).map (· + 1)

/-- `this.accounts.forEach((a, i) => (a.index = i))`: assign index `j`,
`j + 1`, … positionally. -/
def reindexFrom (j : Nat) : List Account → List Account
  | [] => []
  | a :: rest => { a with index := j } :: reindexFrom (j + 1) rest

/-- Apply `f` to the first pool entry whose `index` field is `idx`. -/
def updateFirstByIndex : List Account → Nat → (Account → Account) → List Account
  | [], _, _ => []
  | a :: rest, idx, f =>
    if a.index = idx then f a :: rest
    else a :: updateFirstByIndex rest idx f

/-- The field mutation performed by `markRateLimited` (manager.ts, lines 317–323). -/
def limitMut (cfg : MultiAccountConfig) (resetTime : Nat) (model : Option String)
    (a : Account) : Account :=
  if strTruthy model && cfg.perModelRateLimits then
    { a with rateLimitResets := rlSet a.rateLimitResets (model.getD "") resetTime }
  else
    { a with globalRateLimitReset := some resetTime }

/-- `markRateLimited` (manager.ts, lines 312–331). -/
def markRateLimited (mgr : AccountManager) (account : Account)
    (retryAfterMs : Nat) (model : Option String) (now : Nat) :
    AccountManager × Account :=
  let resetTime := now + retryAfterMs
  let f := limitMut mgr.config resetTime model
  ({ mgr with accounts := updateFirstByIndex mgr.accounts account.index f },
   f account)

/-- `removeAccount` (manager.ts, lines 343–363): splice by `index` identity,
re-index densely, clamp `activeIndex` and the cursor. -/
def removeAccount (mgr : AccountManager) (account : Account) : AccountManager :=
  match jsFindIndex (fun a => a.index == account.index) mgr.accounts with
  | some i =>
    let accounts := reindexFrom 0 (mgr.accounts.eraseIdx i)
    let activeIndex := if accounts.length ≤ mgr.activeIndex
                       then accounts.length - 1
                       else mgr.activeIndex
    { mgr with accounts := accounts, activeIndex := activeIndex,
               roundRobinCursor := activeIndex, strategyInitialized := false }
  | none => mgr

/-- The field mutation performed by `markRefreshFailed` (manager.ts, lines 334–336). -/
def failMut (error : String) (a : Account) : Account :=
  { a with consecutiveFailures := a.consecutiveFailures + 1,
           lastRefreshError := some error,
           isRefreshing := false }

/-- `markRefreshFailed` (manager.ts, lines 333–341). -/
def markRefreshFailed (mgr : AccountManager) (account : Account)
    (error : String) : AccountManager × Account :=
  let account := failMut error account
  let mgr := { mgr with
    accounts := updateFirstByIndex mgr.accounts account.index (failMut error) }
  if mgr.config.removeOnInvalidGrant && strIncludes error "invalid_grant" then
    (removeAccount mgr account, account)
  else (mgr, account)

/-- The field mutation performed by `updateAccountTokens`
(manager.ts, lines 365–392): install the new triple, clear failure state,
then refresh identity claims from the decoded token. -/
def tokensMut (decode : String → Option JwtPayload)
    (accessToken refreshToken : String) (expires : Nat) (a : Account) : Account :=
  let a := { a with access := some accessToken,
                    refreshToken := refreshToken,
                    expires := some expires,
                    consecutiveFailures := 0,
                    isRefreshing := false,
                    lastRefreshError := none }
  match decode accessToken with
  | some payload =>
    let a := if strTruthy payload.accountId
             then { a with accountId := payload.accountId } else a
    let a := if strTruthy payload.userId
             then { a with userId := payload.userId } else a
    if strTruthy payload.planType
    then { a with planType := payload.planType } else a
  | none => a

/-- `updateAccountTokens` (manager.ts, lines 365–395). -/
def updateAccountTokens (decode : String → Option JwtPayload)
    (mgr : AccountManager) (account : Account)
    (accessToken refreshToken : String) (expires : Nat) :
    AccountManager × Account :=
  let f := tokensMut decode accessToken refreshToken expires
  ({ mgr with accounts := updateFirstByIndex mgr.accounts account.index f },
   f account)

/-- Outcome of one call to the external credential-refresh collaborator
(`refreshAccessToken`): structured success, structured failure, or a thrown
exception carrying its `String(err)` rendering. -/
inductive RefreshOutcome
  | success (access refresh : String) (expires : Nat)
  | failed
  | threw (err : String)

/-- `ensureValidToken` (manager.ts, lines 397–430). -/
def ensureValidToken (decode : String → Option JwtPayload)
    (refreshFn : String → RefreshOutcome)
    (mgr : AccountManager) (account : Account) (now : Nat) :
    Bool × AccountManager × Account :=
  if !natTruthy account.expires ||
     decide (now + mgr.config.proactiveRefreshThresholdMs < account.expires.getD 0) then
    (true, mgr, account)
  else if account.isRefreshing then
    (strTruthy account.access, mgr, account)
  else
    let account := { account with isRefreshing := true }
    let mgr := { mgr with
      accounts := updateFirstByIndex mgr.accounts account.index
        (fun a => { a with isRefreshing := true }) }
    match refreshFn account.refreshToken with
    | .success access refresh expires =>
      let (mgr, account) := updateAccountTokens decode mgr account access refresh expires
      (true, mgr, account)
    | .failed =>
      let (mgr, account) := markRefreshFailed mgr account "Token refresh failed"
      (false, mgr, account)
    | .threw err =>
      let (mgr, account) := markRefreshFailed mgr account err
      (false, mgr, account)

/-! ## `addAccount` (manager.ts, lines 96–180) -/

/-- The `findIndex` deduplication predicate of `addAccount`
(manager.ts, lines 127–132), applied to the incoming `userId`, `accountId`
and `refreshToken`. -/
def dedupMatches (userId accountId : Option String) (refreshToken : String)
    (a : Account) : Bool :=
  if strTruthy userId && strTruthy a.userId then
    a.userId == userId && a.accountId == accountId
  else
    a.refreshToken == refreshToken

/-- The in-place field update performed on a deduplication hit
(manager.ts, lines 134–143). -/
def addUpdateMut (accessToken : Option String) (refreshToken : String)
    (expires : Option Nat) (userId accountId planType extractedEmail : Option String)
    (a : Account) : Account :=
  let a := if strTruthy accessToken then { a with access := accessToken } else a
  let a := if refreshToken != "" then { a with refreshToken := refreshToken } else a
  let a := if natTruthy expires then { a with expires := expires } else a
  let a := if strTruthy userId then { a with userId := userId } else a
  let a := if strTruthy accountId then { a with accountId := accountId } else a
  let a := if strTruthy planType then { a with planType := planType } else a
  let a := if strTruthy extractedEmail then { a with email := extractedEmail } else a
  { a with consecutiveFailures := 0 }

/-- The claims extracted at the top of `addAccount` (manager.ts,
lines 102–124): decode only a truthy access token, defaulting every field
to `undefined` when decoding is skipped or fails. -/
def addPayload (decode : String → Option JwtPayload)
    (accessToken : Option String) : JwtPayload :=
  match (if strTruthy accessToken then decode (accessToken.getD "") else none) with
  | some p => p
  | none => {}

/-- `extractedEmail` (manager.ts, lines 104, 120–122): the explicit email
parameter, falling back to the profile email of the decoded token. -/
def extractEmail (email profileEmail : Option String) : Option String :=
  if !strTruthy email && strTruthy profileEmail then profileEmail else email

/-- `addAccount` (manager.ts, lines 96–180); `now` is `Date.now()` for
`addedAt`.  Returns the account that was updated or created, and the
mutated manager. -/
def addAccount (decode : String → Option JwtPayload) (mgr : AccountManager)
    (email : Option String) (refreshToken : String)
    (accessToken : Option String) (expires : Option Nat) (now : Nat) :
    Account × AccountManager :=
  let p := addPayload decode accessToken
  let extractedEmail := extractEmail email p.profileEmail
  match jsFindIndex (dedupMatches p.userId p.accountId refreshToken) mgr.accounts with
  | some i =>
    let f := addUpdateMut accessToken refreshToken expires
               p.userId p.accountId p.planType extractedEmail
    let existing := f (mgr.accounts.getD i default)
    (existing,
     { mgr with accounts := mgr.accounts.set i existing,
                strategyInitialized := false })
  | none =>
    let account : Account :=
      { index := mgr.accounts.length,
        email := extractedEmail,
        userId := p.userId,
        planType := p.planType,
        accountId := p.accountId,
        addedAt := now,
        refreshToken := refreshToken,
        access := accessToken,
        expires := expires,
        rateLimitResets := [],
        consecutiveFailures := 0 }
    (account,
     { mgr with accounts := mgr.accounts ++ [account],
                strategyInitialized := false })

/-! ## Usage snapshot tracker (`CodexStatusManager`, `codex-status.ts`) -/

/-- One rate-limit window of a `CodexRateLimitSnapshot`. -/
structure WindowSnapshot where
  usedPercent : Int
  windowMinutes : Nat
  resetAt : Nat
deriving Repr, DecidableEq

/-- The credits block of a `CodexRateLimitSnapshot`. -/
structure CreditsSnapshot where
  hasCredits : Bool
  unlimited : Bool
  balance : String
deriving Repr, DecidableEq

/-- `CodexRateLimitSnapshot`. -/
structure CodexRateLimitSnapshot where
  accountId : String
  email : String
  plan : String
  updatedAt : Nat
  primary : Option WindowSnapshot
  secondary : Option WindowSnapshot
  credits : Option CreditsSnapshot
deriving Repr, DecidableEq

/-- `SNAPSHOT_RETENTION_MS = 7 * 24 * 60 * 60 * 1000`. -/
def SNAPSHOT_RETENTION_MS : Nat := 7 * 24 * 60 * 60 * 1000

/-- A JS `Map<string, CodexRateLimitSnapshot>`: insertion-ordered
associations with unique keys. -/
abbrev SnapshotMap := List (String × CodexRateLimitSnapshot)

/-- `Map.get`. -/
def smGet (m : SnapshotMap) (k : String) : Option CodexRateLimitSnapshot :=
  (m.find? (fun p => p.1 == k)).map Prod.snd

/-- `Map.set`: overwrite in place, or append. -/
def smSet (m : SnapshotMap) (k : String) (v : CodexRateLimitSnapshot) : SnapshotMap :=
  if m.any (fun p => p.1 == k) then
    m.map (fun p => if p.1 == k then (k, v) else p)
  else
    m ++ [(k, v)]

/-- The per-entry merge step of `CodexStatusManager.saveToDisk`
(codex-status.ts, lines 428–433): the in-memory entry wins only when
strictly newer, or when the key is absent on disk. -/
def mergeStep (acc : SnapshotMap) (kv : String × CodexRateLimitSnapshot) :
    SnapshotMap :=
  match smGet acc kv.1 with
  | none => smSet acc kv.1 kv.2
  | some diskValue =>
    if diskValue.updatedAt < kv.2.updatedAt then smSet acc kv.1 kv.2 else acc

/-- The merge-and-prune policy of `CodexStatusManager.saveToDisk`
(codex-status.ts, lines 415–442): when the on-disk file parsed to an array
(`some diskMap`), fold the in-memory entries into the disk map keeping the
newer entry per key, then prune entries older than the retention window;
otherwise the in-memory map is written as is.  The result is the map that
is serialised (and becomes the new in-memory map). -/
def mergeSnapshots (memory : SnapshotMap) (disk : Option SnapshotMap)
    (now : Nat) : SnapshotMap :=
  match disk with
  | none => memory
  | some diskMap =>
    let merged := memory.foldl mergeStep diskMap
    merged.filter (fun kv => !(decide (SNAPSHOT_RETENTION_MS < now - kv.2.updatedAt)))

/-! ## Request orchestrator (plugin entry point, `executeRequest`)

HTTP status constants from `lib/constants.js` (only their numeric values are
needed): `HTTP_STATUS.UNAUTHORIZED = 401`, `HTTP_STATUS.TOO_MANY_REQUESTS = 429`,
`HTTP_STATUS.NOT_FOUND = 404`. -/

/-- One upstream `fetch` response, reduced to the observations the
orchestrator makes of it: the status code, the parsed `Retry-After` header
(in seconds, when present and parsable), the structured reset timestamp
probed from the body (`resets_at`, already converted to epoch ms), and
whether a 404 body matches the usage-limit pattern of `mapUsageLimit404`. -/
structure UpstreamResp where
  status : Nat
  retryAfterHeader : Option Nat := none
  bodyResetsAt : Option Nat := none
  usageLimit404 : Bool := false
deriving Repr, DecidableEq

/-- `response.ok`. -/
def respOk (r : UpstreamResp) : Bool :=
  200 ≤ r.status && r.status < 300

/-- The status produced by `handleErrorResponse` / `mapUsageLimit404`
(fetch-helpers.ts, lines 229–307): a 404 whose body matches the usage-limit
pattern is remapped to 429; every other response keeps its status. -/
def handleErrorStatus (r : UpstreamResp) : Nat :=
  if r.status == 404 && r.usageLimit404 then 429 else r.status

/-- How a response left the orchestrator. -/
inductive RespTag
  | syntheticRefreshFailure
  | syntheticNoAccountId
  | noAvailableAccounts
  | upstreamError
  | upstreamSuccess
deriving Repr, DecidableEq

/-- The response the orchestrator hands back to its caller. -/
structure OrchResponse where
  status : Nat
  tag : RespTag
deriving Repr, DecidableEq

/-- The classification at the end of `executeRequest` (part_000,
lines 403–407): non-2xx goes through `handleErrorResponse`, 2xx through
`handleSuccessResponse` (which preserves the status). -/
def finalizeResponse (r : UpstreamResp) : OrchResponse :=
  if respOk r then { status := r.status, tag := .upstreamSuccess }
  else { status := handleErrorStatus r, tag := .upstreamError }

/-- `retryAfterMs` computation of the 429 branch (part_000, lines 345–364):
`Retry-After` seconds × 1000, else body `resets_at − now`, else 60000.
(`resets_at − now` uses truncated `Nat` subtraction; a reset in the past
yields 0, which like JS's negative value marks a reset not in the future.) -/
def computeRetryAfterMs (r : UpstreamResp) (now : Nat) : Nat :=
  match r.retryAfterHeader with
  | some secs => secs * 1000
  | none =>
    match r.bodyResetsAt with
    | some t => t - now
    | none => 60000

/-- `account.accountId || decodeJWT(account.access || "")?.[JWT_CLAIM_PATH]?.chatgpt_account_id`
(part_000, lines 289–294). -/
def resolveAccountId (decode : String → Option JwtPayload) (a : Account) :
    Option String :=
  if strTruthy a.accountId then a.accountId
  else
    match decode (a.access.getD "") with
    | some payload => payload.accountId
    | none => none

/-- The fixed environment of one logical request: clock, process id, the
external collaborators (JWT decode, token refresh, upstream transport), and
the model parsed once from the request body (the body never changes across
retries).  The upstream oracle is indexed by how many transport calls have
been issued so far. -/
structure OrchCtx where
  now : Nat
  pid : Nat
  decode : String → Option JwtPayload
  refreshFn : String → RefreshOutcome
  upstream : Nat → UpstreamResp
  model : Option String

/-- Mutable state threaded through the retry recursion: the account manager
and the number of transport calls issued. -/
structure OrchState where
  mgr : AccountManager
  fetchCount : Nat
deriving Repr, DecidableEq

/-- One unfolding of `executeRequest` (part_000, lines 250–408), with the
recursive call abstracted as `recurse`:

1. `ensureValidToken`; on failure reselect (no model filter) and recurse
   with the same retry budget only if the new account differs, else return
   a synthetic 401.
2. Resolve the account id; absence is a synthetic 401.
3. Issue the transport call.
4. 429: mark rate-limited; if `retryCount < poolSize − 1` reselect and
   recurse with `retryCount + 1` when the account differs; otherwise fall
   through to error classification.
5. 401 with `retryCount < 1`: mark refresh failed ("401 Unauthorized"),
   reselect, recurse with `retryCount + 1` when the account differs;
   otherwise fall through.
6. Classify: non-2xx via `handleErrorStatus`, 2xx as success. -/
def orchStep (ctx : OrchCtx)
    (recurse : OrchState → Account → Nat → Option (OrchResponse × OrchState))
    (st : OrchState) (account : Account) (retryCount : Nat) :
    Option (OrchResponse × OrchState) :=
  let ev := ensureValidToken ctx.decode ctx.refreshFn st.mgr account ctx.now
  if ev.1 = false then
    let sel := getNextAvailableAccount ev.2.1 none ctx.now ctx.pid
    match sel.1 with
    | some nextAccount =>
      if nextAccount.index = ev.2.2.index then
        some ({ status := 401, tag := .syntheticRefreshFailure },
              { mgr := sel.2, fetchCount := st.fetchCount })
      else recurse { mgr := sel.2, fetchCount := st.fetchCount } nextAccount retryCount
    | none =>
      some ({ status := 401, tag := .syntheticRefreshFailure },
            { mgr := sel.2, fetchCount := st.fetchCount })
  else
    if strTruthy (resolveAccountId ctx.decode ev.2.2) = false then
      some ({ status := 401, tag := .syntheticNoAccountId },
            { mgr := ev.2.1, fetchCount := st.fetchCount })
    else
      let r := ctx.upstream st.fetchCount
      let fc := st.fetchCount + 1
      if r.status = 429 then
        let mk := markRateLimited ev.2.1 ev.2.2 (computeRetryAfterMs r ctx.now)
                    ctx.model ctx.now
        if retryCount < mk.1.accounts.length - 1 then
          let sel := getNextAvailableAccount mk.1 ctx.model ctx.now ctx.pid
          match sel.1 with
          | some nextAccount =>
            if nextAccount.index = mk.2.index then
              some (finalizeResponse r, { mgr := sel.2, fetchCount := fc })
            else recurse { mgr := sel.2, fetchCount := fc } nextAccount (retryCount + 1)
          | none => some (finalizeResponse r, { mgr := sel.2, fetchCount := fc })
        else some (finalizeResponse r, { mgr := mk.1, fetchCount := fc })
      else if r.status = 401 ∧ retryCount < 1 then
        let mk := markRefreshFailed ev.2.1 ev.2.2 "401 Unauthorized"
        let sel := getNextAvailableAccount mk.1 ctx.model ctx.now ctx.pid
        match sel.1 with
        | some nextAccount =>
          if nextAccount.index = mk.2.index then
            some (finalizeResponse r, { mgr := sel.2, fetchCount := fc })
          else recurse { mgr := sel.2, fetchCount := fc } nextAccount (retryCount + 1)
        | none => some (finalizeResponse r, { mgr := sel.2, fetchCount := fc })
      else some (finalizeResponse r, { mgr := ev.2.1, fetchCount := fc })

/-- `executeRequest`, with an explicit fuel bounding the recursion depth
(`none` = fuel exhausted before the recursion returned). -/
def executeRequest (ctx : OrchCtx) (fuel : Nat) (st : OrchState)
    (account : Account) (retryCount : Nat) : Option (OrchResponse × OrchState) :=
  match fuel with
  | 0 => none
  | fuel + 1 =>
    orchStep ctx (fun st a r => executeRequest ctx fuel st a r) st account retryCount

/-- The custom `fetch` wrapping `executeRequest` (part_000, lines 413–433):
select an account for the request's model; with none available return a
synthetic 503, else run `executeRequest` with `retryCount = 0`. -/
def pluginFetch (ctx : OrchCtx) (fuel : Nat) (st : OrchState) :
    Option (OrchResponse × OrchState) :=
  let sel := getNextAvailableAccount st.mgr ctx.model ctx.now ctx.pid
  match sel.1 with
  | none =>
    some ({ status := 503, tag := .noAvailableAccounts },
          { st with mgr := sel.2 })
  | some account => executeRequest ctx fuel { st with mgr := sel.2 } account 0

/-! # Verification -/

/-! ## Small facts about the mutation helpers -/

theorem tokensMut_spec (decode : String → Option JwtPayload)
    (ac rf : String) (ex : Nat) (a : Account) :
    (tokensMut decode ac rf ex a).consecutiveFailures = 0 ∧
    (tokensMut decode ac rf ex a).isRefreshing = false ∧
    (tokensMut decode ac rf ex a).lastRefreshError = none ∧
    (tokensMut decode ac rf ex a).access = some ac ∧
    (tokensMut decode ac rf ex a).refreshToken = rf ∧
    (tokensMut decode ac rf ex a).expires = some ex ∧
    (tokensMut decode ac rf ex a).index = a.index := by
  unfold tokensMut
  cases decode ac with
  | none => simp
  | some p =>
    simp only
    split <;> split <;> split <;> simp

theorem failMut_spec (e : String) (a : Account) :
    (failMut e a).consecutiveFailures = a.consecutiveFailures + 1 ∧
    (failMut e a).isRefreshing = false ∧
    (failMut e a).lastRefreshError = some e ∧
    (failMut e a).index = a.index ∧
    (failMut e a).expires = a.expires := by
  unfold failMut; simp

theorem markRefreshFailed_snd (mgr : AccountManager) (a : Account) (e : String) :
    (markRefreshFailed mgr a e).2 = failMut e a := by
  simp only [markRefreshFailed]
  split <;> rfl

/-! ## C10 — a successful token refresh clears the failure state -/

/-- C10: `updateAccountTokens` (as invoked by `ensureValidToken` on refresh
success) resets `consecutiveFailures` to 0, clears `isRefreshing` and
`lastRefreshError`, and installs the new access/refresh/expiry triple, so
the account is again below the selection failure ceiling. -/
theorem claim10_updateAccountTokens_clears_failure_state
    (decode : String → Option JwtPayload) (mgr : AccountManager)
    (account : Account) (accessToken refreshToken : String) (expires : Nat) :
    let res := updateAccountTokens decode mgr account accessToken refreshToken expires
    res.2.consecutiveFailures = 0 ∧ res.2.isRefreshing = false ∧
    res.2.lastRefreshError = none ∧ res.2.access = some accessToken ∧
    res.2.refreshToken = refreshToken ∧ res.2.expires = some expires ∧
    res.2.consecutiveFailures < 3 := by
  obtain ⟨h1, h2, h3, h4, h5, h6, -⟩ :=
    tokensMut_spec decode accessToken refreshToken expires account
  refine ⟨h1, h2, h3, h4, h5, h6, ?_⟩
  have h0 : (updateAccountTokens decode mgr account accessToken
      refreshToken expires).2.consecutiveFailures = 0 := h1
  omega

/-! ## C4 — `ensureValidToken` branch behaviour -/

/-- C4: `ensureValidToken` returns true with no refresh when no expiry is
set or the token has more than the configured lead time left; when a
refresh is already in flight it returns whether an access token is cached,
again with no refresh; otherwise it refreshes — installing the new triple
and returning true on success, or recording the failure
(`markRefreshFailed`) and returning false on failure or on a thrown
error. -/
theorem claim4_ensureValidToken_branches
    (decode : String → Option JwtPayload) (refreshFn : String → RefreshOutcome)
    (mgr : AccountManager) (account : Account) (now : Nat) :
    let ev := ensureValidToken decode refreshFn mgr account now
    ((natTruthy account.expires = false ∨
        now + mgr.config.proactiveRefreshThresholdMs < account.expires.getD 0) →
      ev = (true, mgr, account))
    ∧ (natTruthy account.expires = true →
       account.expires.getD 0 ≤ now + mgr.config.proactiveRefreshThresholdMs →
       account.isRefreshing = true →
       ev = (strTruthy account.access, mgr, account))
    ∧ (∀ ac rf ex, natTruthy account.expires = true →
       account.expires.getD 0 ≤ now + mgr.config.proactiveRefreshThresholdMs →
       account.isRefreshing = false →
       refreshFn account.refreshToken = .success ac rf ex →
       ev.1 = true ∧ ev.2.2.access = some ac ∧ ev.2.2.refreshToken = rf ∧
       ev.2.2.expires = some ex ∧ ev.2.2.consecutiveFailures = 0 ∧
       ev.2.2.isRefreshing = false)
    ∧ (natTruthy account.expires = true →
       account.expires.getD 0 ≤ now + mgr.config.proactiveRefreshThresholdMs →
       account.isRefreshing = false →
       refreshFn account.refreshToken = .failed →
       ev.1 = false ∧
       ev.2.2.consecutiveFailures = account.consecutiveFailures + 1 ∧
       ev.2.2.isRefreshing = false ∧
       ev.2.2.lastRefreshError = some "Token refresh failed")
    ∧ (∀ err, natTruthy account.expires = true →
       account.expires.getD 0 ≤ now + mgr.config.proactiveRefreshThresholdMs →
       account.isRefreshing = false →
       refreshFn account.refreshToken = .threw err →
       ev.1 = false ∧
       ev.2.2.consecutiveFailures = account.consecutiveFailures + 1 ∧
       ev.2.2.isRefreshing = false ∧
       ev.2.2.lastRefreshError = some err) := by
  refine ⟨?_, ?_, ?_, ?_, ?_⟩
  · rintro (h | h) <;> simp [ensureValidToken, h]
  · intro h1 h2 h3
    have hcond : (!natTruthy account.expires ||
        decide (now + mgr.config.proactiveRefreshThresholdMs <
          account.expires.getD 0)) = false := by
      simp [h1, Nat.not_lt.mpr h2]
    simp [ensureValidToken, hcond, h3]
  · intro ac rf ex h1 h2 h3 h4
    have hcond : (!natTruthy account.expires ||
        decide (now + mgr.config.proactiveRefreshThresholdMs <
          account.expires.getD 0)) = false := by
      simp [h1, Nat.not_lt.mpr h2]
    obtain ⟨g1, g2, g3, g4, g5, g6, -⟩ :=
      tokensMut_spec decode ac rf ex { account with isRefreshing := true }
    simp [ensureValidToken, hcond, h3, h4, updateAccountTokens,
      g1, g2, g4, g5, g6]
  · intro h1 h2 h3 h4
    have hcond : (!natTruthy account.expires ||
        decide (now + mgr.config.proactiveRefreshThresholdMs <
          account.expires.getD 0)) = false := by
      simp [h1, Nat.not_lt.mpr h2]
    obtain ⟨g1, g2, g3, -, -⟩ :=
      failMut_spec "Token refresh failed" { account with isRefreshing := true }
    simp [ensureValidToken, hcond, h3, h4, markRefreshFailed_snd, g1, g2, g3]
  · intro err h1 h2 h3 h4
    have hcond : (!natTruthy account.expires ||
        decide (now + mgr.config.proactiveRefreshThresholdMs <
          account.expires.getD 0)) = false := by
      simp [h1, Nat.not_lt.mpr h2]
    obtain ⟨g1, g2, g3, -, -⟩ :=
      failMut_spec err { account with isRefreshing := true }
    simp [ensureValidToken, hcond, h3, h4, markRefreshFailed_snd, g1, g2, g3]

/-- Witness for C4: each branch exercised at a concrete account. -/
theorem claim4_witness :
    (ensureValidToken (fun _ => none) (fun _ => .failed)
      { accounts := [], activeIndex := 0, roundRobinCursor := 0,
        strategyInitialized := false, config := DEFAULT_MULTI_ACCOUNT_CONFIG }
      { index := 0, refreshToken := "rt" } 1000 =
      (true,
       { accounts := [], activeIndex := 0, roundRobinCursor := 0,
         strategyInitialized := false, config := DEFAULT_MULTI_ACCOUNT_CONFIG },
       { index := 0, refreshToken := "rt" }))
    ∧ (ensureValidToken (fun _ => none) (fun _ => .failed)
        { accounts := [], activeIndex := 0, roundRobinCursor := 0,
          strategyInitialized := false, config := DEFAULT_MULTI_ACCOUNT_CONFIG }
        { index := 0, refreshToken := "rt", expires := some 5,
          isRefreshing := true, access := some "tok" } 1000 =
        (true,
         { accounts := [], activeIndex := 0, roundRobinCursor := 0,
           strategyInitialized := false, config := DEFAULT_MULTI_ACCOUNT_CONFIG },
         { index := 0, refreshToken := "rt", expires := some 5,
           isRefreshing := true, access := some "tok" }))
    ∧ (ensureValidToken (fun _ => none) (fun _ => .success "na" "nr" 99)
        { accounts := [], activeIndex := 0, roundRobinCursor := 0,
          strategyInitialized := false, config := DEFAULT_MULTI_ACCOUNT_CONFIG }
        { index := 0, refreshToken := "rt", expires := some 5,
          consecutiveFailures := 2 } 1000).1 = true
    ∧ (ensureValidToken (fun _ => none) (fun _ => .failed)
        { accounts := [], activeIndex := 0, roundRobinCursor := 0,
          strategyInitialized := false, config := DEFAULT_MULTI_ACCOUNT_CONFIG }
        { index := 0, refreshToken := "rt", expires := some 5 }
        1000).2.2.consecutiveFailures = 1
    ∧ (ensureValidToken (fun _ => none) (fun _ => .threw "boom")
        { accounts := [], activeIndex := 0, roundRobinCursor := 0,
          strategyInitialized := false, config := DEFAULT_MULTI_ACCOUNT_CONFIG }
        { index := 0, refreshToken := "rt", expires := some 5 }
        1000).2.2.lastRefreshError = some "boom" := by
  refine ⟨?_, ?_, ?_, ?_, ?_⟩
  · exact (claim4_ensureValidToken_branches _ _ _ _ _).1 (Or.inl (by decide))
  · exact (claim4_ensureValidToken_branches _ _ _ _ _).2.1
      (by decide) (by decide) (by decide)
  · exact ((claim4_ensureValidToken_branches _ _ _ _ _).2.2.1
      "na" "nr" 99 (by decide) (by decide) (by decide) rfl).1
  · exact ((claim4_ensureValidToken_branches _ _ _ _ _).2.2.2.1
      (by decide) (by decide) (by decide) rfl).2.1
  · exact ((claim4_ensureValidToken_branches _ _ _ _ _).2.2.2.2
      "boom" (by decide) (by decide) (by decide) rfl).2.2.2

/-! ## C5 — `loadFromDisk` resilience (corrected) -/

/-- A manager that already holds one account in memory. -/
def mgrC5 : AccountManager :=
  { accounts := [{ index := 0, refreshToken := "rt" }], activeIndex := 0,
    roundRobinCursor := 0, strategyInitialized := true,
    config := DEFAULT_MULTI_ACCOUNT_CONFIG }

/-- A parsed snapshot carrying an unsupported version tag. -/
def diskC5 : StorageData :=
  { version := some 2, accountsIsArray := true, accounts := [],
    activeAccountIndex := none }

/-- C5 counterexample: loading a snapshot with a mismatched version tag
does NOT reset the store to an empty pool — the in-memory account
survives, contradicting "resets to an empty pool" as a general property of
`loadFromDisk`. -/
theorem claim5_counterexample :
    (loadFromDisk mgrC5 (DiskRead.parsed diskC5)).accounts ≠ [] := by decide

/-- C5 (amended): `loadFromDisk` never throws (it is total); a parse
failure resets the store to an empty pool; a missing file or a snapshot
without the supported version-1/array shape leaves the in-memory state
unchanged — so a freshly constructed (empty) store is left empty and
usable in all three failure cases. -/
theorem claim5_loadFromDisk_amended :
    (∀ mgr, loadFromDisk mgr .parseError =
      { mgr with accounts := [], activeIndex := 0, roundRobinCursor := 0,
                 strategyInitialized := false })
    ∧ (∀ mgr, loadFromDisk mgr .missing = mgr)
    ∧ (∀ mgr d, (d.version == some 1 && d.accountsIsArray) = false →
        loadFromDisk mgr (.parsed d) = mgr)
    ∧ (∀ mgr r, mgr.accounts = [] →
        (∀ d, r = .parsed d → (d.version == some 1 && d.accountsIsArray) = false) →
        (loadFromDisk mgr r).accounts = []) := by
  refine ⟨fun mgr => rfl, fun mgr => rfl, ?_, ?_⟩
  · intro mgr d h
    simp [loadFromDisk, h]
  · intro mgr r hempty hbad
    cases r with
    | missing => simpa [loadFromDisk] using hempty
    | parseError => rfl
    | parsed d => simp [loadFromDisk, hbad d rfl, hempty]

/-- Witness for C5 (amended): the hypotheses are dischargeable — a
version-2 snapshot leaves the one-account manager untouched, and a fresh
empty manager stays empty across a version-mismatch load. -/
theorem claim5_witness :
    loadFromDisk mgrC5 (DiskRead.parsed diskC5) = mgrC5 ∧
    (loadFromDisk { mgrC5 with accounts := [] }
      (DiskRead.parsed diskC5)).accounts = [] := by
  constructor
  · exact claim5_loadFromDisk_amended.2.2.1 mgrC5 diskC5 (by decide)
  · exact claim5_loadFromDisk_amended.2.2.2 { mgrC5 with accounts := [] }
      (DiskRead.parsed diskC5) rfl (by intro d hd; cases hd; decide)

/-! ## List index lemmas for the pool operations -/

theorem jsFindIndex_some_lt {α : Type} (p : α → Bool) :
    ∀ (l : List α) (i : Nat), jsFindIndex p l = some i → i < l.length := by
  intro l
  induction l with
  | nil => intro i h; simp [jsFindIndex] at h
  | cons a rest ih =>
    intro i h
    simp only [jsFindIndex] at h
    split at h
    · cases h; simp
    · cases hr : jsFindIndex p rest with
      | none => rw [hr] at h; simp at h
      | some j =>
        rw [hr] at h
        simp at h
        have := ih j hr
        simp only [List.length_cons]
        omega

theorem eraseIdx_length {α : Type} :
    ∀ (l : List α) (i : Nat), i < l.length → (l.eraseIdx i).length + 1 = l.length := by
  intro l
  induction l with
  | nil => intro i h; simp at h
  | cons a rest ih =>
    intro i h
    cases i with
    | zero => simp [List.eraseIdx]
    | succ i =>
      simp only [List.eraseIdx, List.length_cons]
      have := ih i (by simpa using Nat.lt_of_succ_lt_succ h)
      omega

theorem eraseIdx_getElem?_lt {α : Type} :
    ∀ (l : List α) (i j : Nat), j < i → (l.eraseIdx i)[j]? = l[j]? := by
  intro l
  induction l with
  | nil => intro i j h; simp [List.eraseIdx]
  | cons a rest ih =>
    intro i j h
    cases i with
    | zero => omega
    | succ i =>
      cases j with
      | zero => simp [List.eraseIdx]
      | succ j => simp [List.eraseIdx, ih i j (by omega)]

theorem eraseIdx_getElem?_ge {α : Type} :
    ∀ (l : List α) (i j : Nat), i ≤ j → (l.eraseIdx i)[j]? = l[j + 1]? := by
  intro l
  induction l with
  | nil => intro i j h; simp [List.eraseIdx]
  | cons a rest ih =>
    intro i j h
    cases i with
    | zero => simp [List.eraseIdx]
    | succ i =>
      cases j with
      | zero => omega
      | succ j => simp [List.eraseIdx, ih i j (by omega)]

theorem reindexFrom_length :
    ∀ (l : List Account) (k : Nat), (reindexFrom k l).length = l.length := by
  intro l
  induction l with
  | nil => intro k; simp [reindexFrom]
  | cons a rest ih => intro k; simp [reindexFrom, ih]

theorem reindexFrom_getElem? :
    ∀ (l : List Account) (k j : Nat),
      (reindexFrom k l)[j]? = (l[j]?).map (fun a => { a with index := k + j }) := by
  intro l
  induction l with
  | nil => intro k j; simp [reindexFrom]
  | cons a rest ih =>
    intro k j
    cases j with
    | zero => simp [reindexFrom]
    | succ j =>
      have harith : k + 1 + j = k + (j + 1) := by omega
      simp [reindexFrom, ih (k + 1) j, harith]

theorem set_getElem?_eq {α : Type} :
    ∀ (l : List α) (i : Nat) (v : α), i < l.length → (l.set i v)[i]? = some v := by
  intro l
  induction l with
  | nil => intro i v h; simp at h
  | cons a rest ih =>
    intro i v h
    cases i with
    | zero => simp
    | succ i => simpa using ih i v (by simpa using Nat.lt_of_succ_lt_succ h)

theorem set_getElem?_ne {α : Type} :
    ∀ (l : List α) (i : Nat) (v : α) (j : Nat), j ≠ i → (l.set i v)[j]? = l[j]? := by
  intro l
  induction l with
  | nil => intro i v j h; simp
  | cons a rest ih =>
    intro i v j h
    cases i with
    | zero =>
      cases j with
      | zero => omega
      | succ j => simp
    | succ i =>
      cases j with
      | zero => simp
      | succ j => simpa using ih i v j (by omega)

/-! ## C7 — `removeAccount` re-establishes the density invariant -/

/-- C7: when an account with a matching `index` is found at position `i`,
`removeAccount` splices it out, re-indexes every remaining account to its
new position (`0..count-1`, no gaps), keeps all other accounts in order,
and clamps `activeIndex` (and the round-robin cursor, which is set to it)
into the new valid range. -/
theorem claim7_removeAccount_density (mgr : AccountManager) (account : Account)
    (i : Nat)
    (h : jsFindIndex (fun a => a.index == account.index) mgr.accounts = some i) :
    let mgr2 := removeAccount mgr account
    mgr2.accounts.length + 1 = mgr.accounts.length ∧
    (∀ (j : Nat) (b : Account), mgr2.accounts[j]? = some b → b.index = j) ∧
    (∀ j, j < i →
      mgr2.accounts[j]? = (mgr.accounts[j]?).map (fun a => { a with index := j })) ∧
    (∀ j, i ≤ j →
      mgr2.accounts[j]? = (mgr.accounts[j + 1]?).map (fun a => { a with index := j })) ∧
    (mgr2.accounts.length = 0 → mgr2.activeIndex = 0) ∧
    (0 < mgr2.accounts.length → mgr2.activeIndex < mgr2.accounts.length) ∧
    mgr2.roundRobinCursor = mgr2.activeIndex := by
  intro mgr2
  have hi : i < mgr.accounts.length := jsFindIndex_some_lt _ _ _ h
  have hmgr2 : mgr2 = { mgr with
      accounts := reindexFrom 0 (mgr.accounts.eraseIdx i),
      activeIndex :=
        if (reindexFrom 0 (mgr.accounts.eraseIdx i)).length ≤ mgr.activeIndex
        then (reindexFrom 0 (mgr.accounts.eraseIdx i)).length - 1
        else mgr.activeIndex,
      roundRobinCursor :=
        if (reindexFrom 0 (mgr.accounts.eraseIdx i)).length ≤ mgr.activeIndex
        then (reindexFrom 0 (mgr.accounts.eraseIdx i)).length - 1
        else mgr.activeIndex,
      strategyInitialized := false } := by
    show removeAccount mgr account = _
    simp only [removeAccount, h]
  have hlen : mgr2.accounts.length + 1 = mgr.accounts.length := by
    have he := eraseIdx_length mgr.accounts i hi
    rw [hmgr2]
    simpa [reindexFrom_length] using he
  refine ⟨hlen, ?_, ?_, ?_, ?_, ?_, ?_⟩
  · intro j b hb
    rw [hmgr2] at hb
    simp only [reindexFrom_getElem?] at hb
    cases hg : (mgr.accounts.eraseIdx i)[j]? with
    | none => rw [hg] at hb; simp at hb
    | some c =>
      rw [hg] at hb
      simp at hb
      simp [← hb]
  · intro j hj
    rw [hmgr2]
    simp only [reindexFrom_getElem?, eraseIdx_getElem?_lt _ _ _ hj, Nat.zero_add]
  · intro j hj
    rw [hmgr2]
    simp only [reindexFrom_getElem?, eraseIdx_getElem?_ge _ _ _ hj, Nat.zero_add]
  · intro hz
    rw [hmgr2]
    rw [hmgr2] at hz
    simp only at hz ⊢
    rw [hz]
    simp
  · intro hpos
    rw [hmgr2] at hpos ⊢
    simp only at hpos ⊢
    split <;> omega
  · rw [hmgr2]

/-- Witness for C7: the spec's concrete example — removing the account at
index 1 from a three-account pool leaves a dense pool of two accounts with
indices `[0, 1]` and a clamped active index. -/
theorem claim7_witness :
    let m : AccountManager :=
      { accounts := [{ index := 0, refreshToken := "a" },
                     { index := 1, refreshToken := "b" },
                     { index := 2, refreshToken := "c" }],
        activeIndex := 2, roundRobinCursor := 2, strategyInitialized := true,
        config := DEFAULT_MULTI_ACCOUNT_CONFIG }
    (removeAccount m { index := 1, refreshToken := "b" }).accounts.length + 1 = 3 ∧
    (∀ (j : Nat) (b : Account),
      (removeAccount m { index := 1, refreshToken := "b" }).accounts[j]? = some b →
      b.index = j) ∧
    (removeAccount m { index := 1, refreshToken := "b" }).activeIndex <
      (removeAccount m { index := 1, refreshToken := "b" }).accounts.length := by
  intro m
  have h := claim7_removeAccount_density m { index := 1, refreshToken := "b" } 1 (by decide)
  exact ⟨h.1, h.2.1, h.2.2.2.2.2.1 (by decide)⟩

/-! ## C6 — `addAccount` deduplication -/

theorem addUpdateMut_spec (accessToken : Option String) (refreshToken : String)
    (expires : Option Nat) (userId accountId planType extractedEmail : Option String)
    (a : Account) :
    (addUpdateMut accessToken refreshToken expires userId accountId planType
      extractedEmail a).consecutiveFailures = 0 ∧
    (addUpdateMut accessToken refreshToken expires userId accountId planType
      extractedEmail a).index = a.index := by
  unfold addUpdateMut
  repeat' split
  all_goals simp

/-- C6: `addAccount` deduplicates with the `dedupMatches` rule — the
`(userId, accountId)` pair when both the incoming and the stored `userId`
are truthy, else exact `refreshToken` equality.  On the first match it
updates that entry in place (same position, same `index`, all other
entries untouched) and resets its `consecutiveFailures` to 0, returning
the stored account; with no match it appends a fresh account whose `index`
is the previous pool length. -/
theorem claim6_addAccount_dedup (decode : String → Option JwtPayload)
    (mgr : AccountManager) (email : Option String) (refreshToken : String)
    (accessToken : Option String) (expires : Option Nat) (now : Nat) :
    let p := addPayload decode accessToken
    let res := addAccount decode mgr email refreshToken accessToken expires now
    (∀ i, jsFindIndex (dedupMatches p.userId p.accountId refreshToken)
        mgr.accounts = some i →
      res.2.accounts.length = mgr.accounts.length ∧
      res.1.consecutiveFailures = 0 ∧
      res.2.accounts[i]? = some res.1 ∧
      (∀ j, j ≠ i → res.2.accounts[j]? = mgr.accounts[j]?) ∧
      res.1.index = (mgr.accounts.getD i default).index)
    ∧ (jsFindIndex (dedupMatches p.userId p.accountId refreshToken)
        mgr.accounts = none →
      res.2.accounts = mgr.accounts ++ [res.1] ∧
      res.1.index = mgr.accounts.length ∧
      res.1.consecutiveFailures = 0) := by
  intro p res
  constructor
  · intro i h
    have hi : i < mgr.accounts.length := jsFindIndex_some_lt _ _ _ h
    have hres : res = (addUpdateMut accessToken refreshToken expires
        p.userId p.accountId p.planType (extractEmail email p.profileEmail)
        (mgr.accounts.getD i default),
      { mgr with
          accounts := mgr.accounts.set i
            (addUpdateMut accessToken refreshToken expires
              p.userId p.accountId p.planType (extractEmail email p.profileEmail)
              (mgr.accounts.getD i default)),
          strategyInitialized := false }) := by
      simp only [res, p, addAccount, h]
    obtain ⟨hc, hidx⟩ := addUpdateMut_spec accessToken refreshToken expires
      p.userId p.accountId p.planType (extractEmail email p.profileEmail)
      (mgr.accounts.getD i default)
    refine ⟨?_, ?_, ?_, ?_, ?_⟩
    · rw [hres]; simp
    · rw [hres]; exact hc
    · rw [hres]; simp only; exact set_getElem?_eq _ _ _ hi
    · intro j hj; rw [hres]; simp only; exact set_getElem?_ne _ _ _ _ hj
    · rw [hres]; exact hidx
  · intro h
    refine ⟨?_, ?_, ?_⟩ <;> simp only [res, p, addAccount, h]

/-- Witness for C6: a refresh-token match updates in place; a fresh token
appends with the next dense index. -/
theorem claim6_witness :
    let m : AccountManager :=
      { accounts := [{ index := 0, refreshToken := "rt0" },
                     { index := 1, refreshToken := "rt1" }],
        activeIndex := 0, roundRobinCursor := 0, strategyInitialized := true,
        config := DEFAULT_MULTI_ACCOUNT_CONFIG }
    ((addAccount (fun _ => none) m none "rt1" none none 7).2.accounts.length = 2 ∧
     (addAccount (fun _ => none) m none "rt1" none none 7).1.consecutiveFailures = 0) ∧
    ((addAccount (fun _ => none) m none "rt9" none none 7).1.index = 2) := by
  intro m
  have h1 := (claim6_addAccount_dedup (fun _ => none) m none "rt1" none none 7).1
    1 (by decide)
  have h2 := (claim6_addAccount_dedup (fun _ => none) m none "rt9" none none 7).2
    (by decide)
  exact ⟨⟨h1.1, h1.2.1⟩, h2.2.1⟩

/-! ## Selection lemmas -/

theorem initStrategyState_accounts (mgr : AccountManager) (pid : Nat) :
    (initStrategyState mgr pid).accounts = mgr.accounts := by
  simp only [initStrategyState]
  repeat' split
  all_goals rfl

theorem initStrategyState_config (mgr : AccountManager) (pid : Nat) :
    (initStrategyState mgr pid).config = mgr.config := by
  simp only [initStrategyState]
  repeat' split
  all_goals rfl

theorem getD_mem {α : Type} (d : α) :
    ∀ (l : List α) (i : Nat), i < l.length → l.getD i d ∈ l := by
  intro l
  induction l with
  | nil => intro i h; simp at h
  | cons a rest ih =>
    intro i h
    cases i with
    | zero => simp
    | succ i =>
      have := ih i (by simpa using Nat.lt_of_succ_lt_succ h)
      simp [List.getD_cons_succ]
      right
      simpa [List.getD] using this

theorem isAccountAvailable_failures (cfg : MultiAccountConfig) (a : Account)
    (model : Option String) (now : Nat) :
    isAccountAvailable cfg a model now = true → a.consecutiveFailures < 3 := by
  intro h
  by_contra hc
  push_neg at hc
  simp [isAccountAvailable, hc] at h

theorem scanAux_some_pred (cfg : MultiAccountConfig) (accounts : List Account)
    (model : Option String) (now start : Nat) (hn : 0 < accounts.length) :
    ∀ (rem att idx : Nat),
      scanAux cfg accounts model now start att rem = some idx →
      idx < accounts.length ∧
      isAccountAvailable cfg (accounts.getD idx default) model now = true := by
  intro rem
  induction rem with
  | zero => intro att idx h; simp [scanAux] at h
  | succ rem ih =>
    intro att idx h
    simp only [scanAux] at h
    split at h
    · cases h
      exact ⟨Nat.mod_lt _ hn, by assumption⟩
    · exact ih (att + 1) idx h

theorem scanAux_all_false (cfg : MultiAccountConfig) (accounts : List Account)
    (model : Option String) (now start : Nat) (hn : 0 < accounts.length)
    (hall : ∀ a ∈ accounts, isAccountAvailable cfg a model now = false) :
    ∀ (rem att : Nat), scanAux cfg accounts model now start att rem = none := by
  intro rem
  induction rem with
  | zero => intro att; rfl
  | succ rem ih =>
    intro att
    simp only [scanAux]
    rw [if_neg, ih (att + 1)]
    rw [hall _ (getD_mem _ _ _ (Nat.mod_lt _ hn))]
    simp

theorem scanAux_least (cfg : MultiAccountConfig) (accounts : List Account)
    (model : Option String) (now start : Nat) :
    ∀ (rem att j : Nat), j < rem →
      isAccountAvailable cfg
        (accounts.getD ((start + (att + j)) % accounts.length) default) model now
        = true →
      (∀ j', j' < j →
        isAccountAvailable cfg
          (accounts.getD ((start + (att + j')) % accounts.length) default) model now
          = false) →
      scanAux cfg accounts model now start att rem =
        some ((start + (att + j)) % accounts.length) := by
  intro rem
  induction rem with
  | zero => intro att j h; omega
  | succ rem ih =>
    intro att j hj hav hmin
    simp only [scanAux]
    by_cases hp : isAccountAvailable cfg
        (accounts.getD ((start + att) % accounts.length) default) model now = true
    · rw [if_pos hp]
      have hj0 : j = 0 := by
        by_contra hne
        have h0 := hmin 0 (by omega)
        rw [Nat.add_zero] at h0
        rw [h0] at hp
        exact absurd hp (by simp)
      subst hj0
      rw [Nat.add_zero]
    · rw [if_neg hp]
      cases j with
      | zero =>
        rw [Nat.add_zero] at hav
        exact absurd hav hp
      | succ j =>
        rw [show att + (j + 1) = att + 1 + j by omega]
        refine ih (att + 1) j (by omega) ?_ ?_
        · rw [show att + 1 + j = att + (j + 1) by omega]
          exact hav
        · intro j' hj'
          rw [show att + 1 + j' = att + (j' + 1) by omega]
          exact hmin (j' + 1) (by omega)

theorem leastLoop_eq_none_iff (cfg : MultiAccountConfig) (model : Option String) :
    ∀ (l : List Account) (pos : Nat) (best : Option (Nat × Account × Nat)),
      (leastLoop cfg model l pos best = none ↔
        (best = none ∧ ∀ a ∈ l, 3 ≤ a.consecutiveFailures)) := by
  intro l
  induction l with
  | nil => intro pos best; simp [leastLoop]
  | cons a rest ih =>
    intro pos best
    simp only [leastLoop]
    by_cases hfail : 3 ≤ a.consecutiveFailures
    · rw [if_pos hfail, ih]
      constructor
      · rintro ⟨h1, h2⟩
        exact ⟨h1, by
          intro x hx
          rcases List.mem_cons.mp hx with rfl | hx'
          · exact hfail
          · exact h2 x hx'⟩
      · rintro ⟨h1, h2⟩
        exact ⟨h1, fun x hx => h2 x (List.mem_cons_of_mem a hx)⟩
    · rw [if_neg hfail]
      cases best with
      | none =>
        simp only
        rw [ih]
        constructor
        · rintro ⟨h1, -⟩; cases h1
        · rintro ⟨-, h2⟩
          exact absurd (h2 a (List.mem_cons_self a rest)) hfail
      | some triple =>
        obtain ⟨pb, bb, rb⟩ := triple
        simp only
        split
        · rw [ih]
          constructor
          · rintro ⟨h1, -⟩; cases h1
          · rintro ⟨h1, -⟩; cases h1
        · rw [ih]
          constructor
          · rintro ⟨h1, -⟩; cases h1
          · rintro ⟨h1, -⟩; cases h1

theorem leastLoop_spec (cfg : MultiAccountConfig) (model : Option String) :
    ∀ (l : List Account) (pos : Nat) (best : Option (Nat × Account × Nat)),
      (∀ pb bb rb, best = some (pb, bb, rb) →
        bb.consecutiveFailures < 3 ∧ rb = fallbackResetTime cfg bb model ∧ pb < pos) →
      ∀ p b rt, leastLoop cfg model l pos best = some (p, b, rt) →
        b.consecutiveFailures < 3 ∧ rt = fallbackResetTime cfg b model ∧
        (some (p, b, rt) = best ∨
          (pos ≤ p ∧ l[p - pos]? = some b ∧
           ∀ pb bb rb, best = some (pb, bb, rb) → rt < rb)) ∧
        (∀ a ∈ l, a.consecutiveFailures < 3 → rt ≤ fallbackResetTime cfg a model) ∧
        (∀ q c, l[q]? = some c → pos + q < p → c.consecutiveFailures < 3 →
          rt < fallbackResetTime cfg c model) := by
  intro l
  induction l with
  | nil =>
    intro pos best hb p b rt h
    simp only [leastLoop] at h
    obtain ⟨h1, h2, h3⟩ := hb p b rt h
    refine ⟨h1, h2, Or.inl h.symm, ?_, ?_⟩
    · intro x hx; simp at hx
    · intro q c hq; simp at hq
  | cons a rest ih =>
    intro pos best hb p b rt h
    simp only [leastLoop] at h
    by_cases hfail : 3 ≤ a.consecutiveFailures
    · rw [if_pos hfail] at h
      have hb' : ∀ pb bb rb, best = some (pb, bb, rb) →
          bb.consecutiveFailures < 3 ∧ rb = fallbackResetTime cfg bb model ∧
          pb < pos + 1 := by
        intro pb bb rb hh
        obtain ⟨x, y, z⟩ := hb pb bb rb hh
        exact ⟨x, y, by omega⟩
      obtain ⟨g1, g2, g3, g4, g5⟩ := ih (pos + 1) best hb' p b rt h
      refine ⟨g1, g2, ?_, ?_, ?_⟩
      · rcases g3 with e | ⟨e1, e2, e3⟩
        · exact Or.inl e
        · refine Or.inr ⟨by omega, ?_, e3⟩
          rw [show p - pos = (p - (pos + 1)) + 1 by omega]
          simpa using e2
      · intro x hx hlt
        rcases List.mem_cons.mp hx with rfl | hx'
        · omega
        · exact g4 x hx' hlt
      · intro q c hq hlt hcf
        cases q with
        | zero =>
          have hc : a = c := by simpa using hq
          subst hc
          omega
        | succ q =>
          have hq' : rest[q]? = some c := by simpa using hq
          exact g5 q c hq' (by omega) hcf
    · rw [if_neg hfail] at h
      have hA : a.consecutiveFailures < 3 := by omega
      cases hbv : best with
      | none =>
        rw [hbv] at h
        simp only at h
        have hb' : ∀ pb bb rb,
            (some (pos, a, fallbackResetTime cfg a model) :
              Option (Nat × Account × Nat)) = some (pb, bb, rb) →
            bb.consecutiveFailures < 3 ∧ rb = fallbackResetTime cfg bb model ∧
            pb < pos + 1 := by
          intro pb bb rb hh
          simp only [Option.some.injEq, Prod.mk.injEq] at hh
          obtain ⟨h1, h2, h3⟩ := hh
          subst h1; subst h2; subst h3
          exact ⟨hA, rfl, by omega⟩
        obtain ⟨g1, g2, g3, g4, g5⟩ :=
          ih (pos + 1) (some (pos, a, fallbackResetTime cfg a model)) hb' p b rt h
        refine ⟨g1, g2, ?_, ?_, ?_⟩
        · refine Or.inr ?_
          rcases g3 with e | ⟨e1, e2, e3⟩
          · simp only [Option.some.injEq, Prod.mk.injEq] at e
            obtain ⟨h1, h2, h3⟩ := e
            subst h1; subst h2; subst h3
            refine ⟨Nat.le_refl _, by simp, ?_⟩
            intro pb bb rb hbb
            cases hbb
          · refine ⟨by omega, ?_, ?_⟩
            · rw [show p - pos = (p - (pos + 1)) + 1 by omega]
              simpa using e2
            · intro pb bb rb hbb
              cases hbb
        · intro x hx hlt
          rcases List.mem_cons.mp hx with rfl | hx'
          · rcases g3 with e | ⟨e1, e2, e3⟩
            · simp only [Option.some.injEq, Prod.mk.injEq] at e
              obtain ⟨-, -, h3⟩ := e
              exact Nat.le_of_eq h3
            · exact Nat.le_of_lt (e3 pos x (fallbackResetTime cfg x model) rfl)
          · exact g4 x hx' hlt
        · intro q c hq hlt hcf
          cases q with
          | zero =>
            have hc : a = c := by simpa using hq
            subst hc
            rcases g3 with e | ⟨e1, e2, e3⟩
            · simp only [Option.some.injEq, Prod.mk.injEq] at e
              omega
            · exact e3 pos a (fallbackResetTime cfg a model) rfl
          | succ q =>
            have hq' : rest[q]? = some c := by simpa using hq
            exact g5 q c hq' (by omega) hcf
      | some triple =>
        obtain ⟨pb0, bb0, rb0⟩ := triple
        rw [hbv] at h
        simp only at h
        obtain ⟨hbA, hbR, hbP⟩ := hb pb0 bb0 rb0 hbv
        by_cases hrep : fallbackResetTime cfg a model < rb0
        · rw [if_pos hrep] at h
          have hb' : ∀ pb bb rb,
              (some (pos, a, fallbackResetTime cfg a model) :
                Option (Nat × Account × Nat)) = some (pb, bb, rb) →
              bb.consecutiveFailures < 3 ∧ rb = fallbackResetTime cfg bb model ∧
              pb < pos + 1 := by
            intro pb bb rb hh
            simp only [Option.some.injEq, Prod.mk.injEq] at hh
            obtain ⟨h1, h2, h3⟩ := hh
            subst h1; subst h2; subst h3
            exact ⟨hA, rfl, by omega⟩
          obtain ⟨g1, g2, g3, g4, g5⟩ :=
            ih (pos + 1) (some (pos, a, fallbackResetTime cfg a model)) hb' p b rt h
          have hrt_le : rt ≤ fallbackResetTime cfg a model := by
            rcases g3 with e | ⟨e1, e2, e3⟩
            · simp only [Option.some.injEq, Prod.mk.injEq] at e
              exact Nat.le_of_eq e.2.2
            · exact Nat.le_of_lt (e3 pos a (fallbackResetTime cfg a model) rfl)
          refine ⟨g1, g2, ?_, ?_, ?_⟩
          · refine Or.inr ?_
            rcases g3 with e | ⟨e1, e2, e3⟩
            · simp only [Option.some.injEq, Prod.mk.injEq] at e
              obtain ⟨h1, h2, h3⟩ := e
              subst h1; subst h2; subst h3
              refine ⟨Nat.le_refl _, by simp, ?_⟩
              intro pb bb rb hbb
              simp only [Option.some.injEq, Prod.mk.injEq] at hbb
              omega
            · refine ⟨by omega, ?_, ?_⟩
              · rw [show p - pos = (p - (pos + 1)) + 1 by omega]
                simpa using e2
              · intro pb bb rb hbb
                simp only [Option.some.injEq, Prod.mk.injEq] at hbb
                have := e3 pos a (fallbackResetTime cfg a model) rfl
                omega
          · intro x hx hlt
            rcases List.mem_cons.mp hx with rfl | hx'
            · exact hrt_le
            · exact g4 x hx' hlt
          · intro q c hq hlt hcf
            cases q with
            | zero =>
              have hc : a = c := by simpa using hq
              subst hc
              rcases g3 with e | ⟨e1, e2, e3⟩
              · simp only [Option.some.injEq, Prod.mk.injEq] at e
                omega
              · exact e3 pos a (fallbackResetTime cfg a model) rfl
            | succ q =>
              have hq' : rest[q]? = some c := by simpa using hq
              exact g5 q c hq' (by omega) hcf
        · rw [if_neg hrep] at h
          have hle : rb0 ≤ fallbackResetTime cfg a model := Nat.not_lt.mp hrep
          have hb' : ∀ pb bb rb,
              (some (pb0, bb0, rb0) : Option (Nat × Account × Nat)) =
                some (pb, bb, rb) →
              bb.consecutiveFailures < 3 ∧ rb = fallbackResetTime cfg bb model ∧
              pb < pos + 1 := by
            intro pb bb rb hh
            simp only [Option.some.injEq, Prod.mk.injEq] at hh
            obtain ⟨h1, h2, h3⟩ := hh
            subst h1; subst h2; subst h3
            exact ⟨hbA, hbR, by omega⟩
          obtain ⟨g1, g2, g3, g4, g5⟩ :=
            ih (pos + 1) (some (pb0, bb0, rb0)) hb' p b rt h
          have hrt_le : rt ≤ rb0 := by
            rcases g3 with e | ⟨e1, e2, e3⟩
            · simp only [Option.some.injEq, Prod.mk.injEq] at e
              exact Nat.le_of_eq e.2.2
            · exact Nat.le_of_lt (e3 pb0 bb0 rb0 rfl)
          refine ⟨g1, g2, ?_, ?_, ?_⟩
          · rcases g3 with e | ⟨e1, e2, e3⟩
            · exact Or.inl e
            · refine Or.inr ⟨by omega, ?_, ?_⟩
              · rw [show p - pos = (p - (pos + 1)) + 1 by omega]
                simpa using e2
              · intro pb bb rb hbb
                simp only [Option.some.injEq, Prod.mk.injEq] at hbb
                have := e3 pb0 bb0 rb0 rfl
                omega
          · intro x hx hlt
            rcases List.mem_cons.mp hx with rfl | hx'
            · omega
            · exact g4 x hx' hlt
          · intro q c hq hlt hcf
            cases q with
            | zero =>
              have hc : a = c := by simpa using hq
              subst hc
              rcases g3 with e | ⟨e1, e2, e3⟩
              · simp only [Option.some.injEq, Prod.mk.injEq] at e
                omega
              · have := e3 pb0 bb0 rb0 rfl
                omega
            | succ q =>
              have hq' : rest[q]? = some c := by simpa using hq
              exact g5 q c hq' (by omega) hcf

theorem mem_of_getElem? {α : Type} :
    ∀ (l : List α) (q : Nat) (a : α), l[q]? = some a → a ∈ l := by
  intro l
  induction l with
  | nil => intro q a h; simp at h
  | cons x rest ih =>
    intro q a h
    cases q with
    | zero => simp at h; simp [h]
    | succ q =>
      have := ih q a (by simpa using h)
      exact List.mem_cons_of_mem x this

/-- The selected account of `getNextAvailableAccount`, for a nonempty pool:
the scan hit when there is one, else the `getLeastRateLimitedAccount`
fallback, each stamped with `lastUsed = now`. -/
theorem getNextAvailableAccount_fst (mgr : AccountManager)
    (model : Option String) (now pid : Nat) (hE : mgr.accounts.length ≠ 0) :
    (getNextAvailableAccount mgr model now pid).1 =
      (match scanAux mgr.config mgr.accounts model now
          (if mgr.config.accountSelectionStrategy == .roundRobin
           then (initStrategyState mgr pid).roundRobinCursor
           else (initStrategyState mgr pid).activeIndex) 0 mgr.accounts.length with
       | some idx => some { mgr.accounts.getD idx default with lastUsed := some now }
       | none =>
         match leastLoop mgr.config model mgr.accounts 0 none with
         | some (_, fb, _) => some { fb with lastUsed := some now }
         | none => none) := by
  cases hs : scanAux mgr.config mgr.accounts model now
      (if mgr.config.accountSelectionStrategy == .roundRobin
       then (initStrategyState mgr pid).roundRobinCursor
       else (initStrategyState mgr pid).activeIndex) 0 mgr.accounts.length with
  | some idx =>
    simp only [getNextAvailableAccount, if_neg hE, initStrategyState_accounts,
      initStrategyState_config, hs]
  | none =>
    cases hl : leastLoop mgr.config model mgr.accounts 0 none with
    | none =>
      simp only [getNextAvailableAccount, if_neg hE, initStrategyState_accounts,
        initStrategyState_config, hs, hl]
    | some t =>
      obtain ⟨p0, fb, rt⟩ := t
      simp only [getNextAvailableAccount, if_neg hE, initStrategyState_accounts,
        initStrategyState_config, hs, hl]

/-! ## C2 — `getNextAvailableAccount` scan and null conditions -/

/-- C2: selection returns `none` exactly when the pool is empty or every
account is at the failure ceiling (`consecutiveFailures ≥ 3`); any account
it returns is below the ceiling (so ceiling accounts are excluded from the
scan and the fallback alike); and when the wrap-around scan from the
strategy-determined start has a first available account, that account
(stamped with `lastUsed = now`) is the one returned. -/
theorem claim2_getNextAvailableAccount_spec (mgr : AccountManager)
    (model : Option String) (now pid : Nat) :
    let res := getNextAvailableAccount mgr model now pid
    let start := if mgr.config.accountSelectionStrategy == .roundRobin
                 then (initStrategyState mgr pid).roundRobinCursor
                 else (initStrategyState mgr pid).activeIndex
    (res.1 = none ↔
      (mgr.accounts = [] ∨ ∀ a ∈ mgr.accounts, 3 ≤ a.consecutiveFailures))
    ∧ (∀ a, res.1 = some a → a.consecutiveFailures < 3)
    ∧ (∀ j, j < mgr.accounts.length →
        isAccountAvailable mgr.config
          (mgr.accounts.getD ((start + j) % mgr.accounts.length) default)
          model now = true →
        (∀ j', j' < j →
          isAccountAvailable mgr.config
            (mgr.accounts.getD ((start + j') % mgr.accounts.length) default)
            model now = false) →
        res.1 = some { mgr.accounts.getD ((start + j) % mgr.accounts.length)
                       default with lastUsed := some now }) := by
  intro res start
  by_cases hE : mgr.accounts.length = 0
  · have hnil : mgr.accounts = [] := List.length_eq_zero.mp hE
    have h1 : res.1 = none := by
      show (getNextAvailableAccount mgr model now pid).1 = none
      simp [getNextAvailableAccount, hE]
    refine ⟨by rw [h1]; simp [hnil], ?_, ?_⟩
    · intro a ha; rw [h1] at ha; cases ha
    · intro j hj; exact absurd hj (by omega)
  · have hn : 0 < mgr.accounts.length := Nat.pos_of_ne_zero hE
    have hfst := getNextAvailableAccount_fst mgr model now pid hE
    cases hscan : scanAux mgr.config mgr.accounts model now start 0
        mgr.accounts.length with
    | some idx =>
      simp only [hscan] at hfst
      obtain ⟨hidx_lt, hidx_av⟩ :=
        scanAux_some_pred mgr.config mgr.accounts model now start hn
          mgr.accounts.length 0 idx hscan
      have hlt := isAccountAvailable_failures _ _ _ _ hidx_av
      refine ⟨?_, ?_, ?_⟩
      · rw [hfst]
        apply iff_of_false
        · simp
        · rintro (hnil | hall)
          · exact hE (by rw [hnil]; rfl)
          · have := hall _ (getD_mem default mgr.accounts idx hidx_lt)
            omega
      · intro a ha
        rw [hfst] at ha
        simp only [Option.some.injEq] at ha
        rw [← ha]
        simpa using hlt
      · intro j hj hav hmin
        have hsc2 := scanAux_least mgr.config mgr.accounts model now start
          mgr.accounts.length 0 j hj
          (by rw [Nat.zero_add]; exact hav)
          (fun j' hj' => by rw [Nat.zero_add]; exact hmin j' hj')
        rw [hscan] at hsc2
        simp only [Option.some.injEq] at hsc2
        rw [hfst, hsc2, Nat.zero_add]
    | none =>
      cases hleast : leastLoop mgr.config model mgr.accounts 0 none with
      | none =>
        simp only [hscan, hleast] at hfst
        have hall := ((leastLoop_eq_none_iff mgr.config model
          mgr.accounts 0 none).mp hleast).2
        refine ⟨?_, ?_, ?_⟩
        · rw [hfst]; exact iff_of_true rfl (Or.inr hall)
        · intro a ha; rw [hfst] at ha; cases ha
        · intro j hj hav hmin
          have hsc2 := scanAux_least mgr.config mgr.accounts model now start
            mgr.accounts.length 0 j hj
            (by rw [Nat.zero_add]; exact hav)
            (fun j' hj' => by rw [Nat.zero_add]; exact hmin j' hj')
          rw [hscan] at hsc2
          cases hsc2
      | some triple =>
        obtain ⟨p0, fb, rt0⟩ := triple
        simp only [hscan, hleast] at hfst
        obtain ⟨hfb3, hrt, hprov, hmin_all, htie⟩ :=
          leastLoop_spec mgr.config model mgr.accounts 0 none
            (by intro pb bb rb hh; cases hh) p0 fb rt0 hleast
        refine ⟨?_, ?_, ?_⟩
        · rw [hfst]
          apply iff_of_false
          · simp
          · rintro (hnil | hall)
            · exact hE (by rw [hnil]; rfl)
            · rcases hprov with e | ⟨-, hget, -⟩
              · cases e
              · have hmem : fb ∈ mgr.accounts :=
                  mem_of_getElem? mgr.accounts (p0 - 0) fb hget
                have := hall fb hmem
                omega
        · intro a ha
          rw [hfst] at ha
          simp only [Option.some.injEq] at ha
          rw [← ha]
          simpa using hfb3
        · intro j hj hav hmin
          have hsc2 := scanAux_least mgr.config mgr.accounts model now start
            mgr.accounts.length 0 j hj
            (by rw [Nat.zero_add]; exact hav)
            (fun j' hj' => by rw [Nat.zero_add]; exact hmin j' hj')
          rw [hscan] at hsc2
          cases hsc2

/-- Witness for C2: two sticky accounts, the first rate-limited for the
requested model — the scan's first available account is the second one. -/
theorem claim2_witness :
    let m : AccountManager :=
      { accounts := [{ index := 0, refreshToken := "a",
                       rateLimitResets := [("m", 5000)] },
                     { index := 1, refreshToken := "b" }],
        activeIndex := 0, roundRobinCursor := 0, strategyInitialized := false,
        config := DEFAULT_MULTI_ACCOUNT_CONFIG }
    (getNextAvailableAccount m (some "m") 1000 0).1 =
      some { index := 1, refreshToken := "b", lastUsed := some 1000 } ∧
    ({ index := 1, refreshToken := "b",
       lastUsed := some 1000 } : Account).consecutiveFailures < 3 := by
  intro m
  have h := claim2_getNextAvailableAccount_spec m (some "m") 1000 0
  have h3 := h.2.2 1 (by decide) (by decide)
    (by intro j' hj'
        have hj0 : j' = 0 := by omega
        subst hj0
        decide)
  constructor
  · exact h3
  · exact h.2.1 _ h3

/-! ## C3 — least-rate-limited fallback -/

/-- C3: when no account passes the availability filter but some account is
below the failure ceiling, selection returns (stamped with `lastUsed`) the
fallback computed by the `getLeastRateLimitedAccount` loop, and that
fallback is an account of the pool with `consecutiveFailures < 3` whose
combined reset time `max(globalReset, modelReset)` is minimal among all
sub-ceiling accounts, ties resolving to the account enumerated first. -/
theorem claim3_fallback_least_reset (mgr : AccountManager)
    (model : Option String) (now pid : Nat)
    (hA : ∀ a ∈ mgr.accounts, isAccountAvailable mgr.config a model now = false)
    (hB : ∃ a ∈ mgr.accounts, a.consecutiveFailures < 3) :
    leastLoop mgr.config model mgr.accounts 0 none ≠ none ∧
    (∀ p b rt, leastLoop mgr.config model mgr.accounts 0 none = some (p, b, rt) →
      mgr.accounts[p]? = some b ∧
      (getNextAvailableAccount mgr model now pid).1 =
        some { b with lastUsed := some now } ∧
      b.consecutiveFailures < 3 ∧
      (∀ c ∈ mgr.accounts, c.consecutiveFailures < 3 →
        fallbackResetTime mgr.config b model ≤ fallbackResetTime mgr.config c model) ∧
      (∀ q c, mgr.accounts[q]? = some c → q < p → c.consecutiveFailures < 3 →
        fallbackResetTime mgr.config b model < fallbackResetTime mgr.config c model)) := by
  obtain ⟨a0, ha0m, ha03⟩ := hB
  have hE : mgr.accounts.length ≠ 0 := by
    intro h
    rw [List.length_eq_zero.mp h] at ha0m
    cases ha0m
  have hn : 0 < mgr.accounts.length := Nat.pos_of_ne_zero hE
  have hfst := getNextAvailableAccount_fst mgr model now pid hE
  have hscan := scanAux_all_false mgr.config mgr.accounts model now
    (if mgr.config.accountSelectionStrategy == .roundRobin
     then (initStrategyState mgr pid).roundRobinCursor
     else (initStrategyState mgr pid).activeIndex) hn hA mgr.accounts.length 0
  constructor
  · intro hnone
    have hall := ((leastLoop_eq_none_iff mgr.config model
      mgr.accounts 0 none).mp hnone).2
    exact absurd (hall a0 ha0m) (by omega)
  · intro p b rt hleast
    simp only [hscan, hleast] at hfst
    obtain ⟨hfb3, hrt, hprov, hmin_all, htie⟩ :=
      leastLoop_spec mgr.config model mgr.accounts 0 none
        (by intro pb bb rb hh; cases hh) p b rt hleast
    rcases hprov with e | ⟨-, hget, -⟩
    · cases e
    · refine ⟨by simpa using hget, hfst, hfb3, ?_, ?_⟩
      · intro c hc hcf
        rw [← hrt] at *
        exact hmin_all c hc hcf
      · intro q c hq hqp hcf
        rw [← hrt]
        exact htie q c hq (by omega) hcf

/-- Witness for C3: two sticky accounts, both globally rate-limited; the
fallback is the one with the earlier reset (index 1, reset 3000 < 5000). -/
theorem claim3_witness :
    let m : AccountManager :=
      { accounts := [{ index := 0, refreshToken := "a",
                       globalRateLimitReset := some 5000 },
                     { index := 1, refreshToken := "b",
                       globalRateLimitReset := some 3000 }],
        activeIndex := 0, roundRobinCursor := 0, strategyInitialized := false,
        config := DEFAULT_MULTI_ACCOUNT_CONFIG }
    m.accounts[1]? = some { index := 1, refreshToken := "b",
                            globalRateLimitReset := some 3000 } ∧
    (getNextAvailableAccount m none 1000 0).1 =
      some { index := 1, refreshToken := "b", globalRateLimitReset := some 3000,
             lastUsed := some 1000 } := by
  intro m
  have h := (claim3_fallback_least_reset m none 1000 0 (by decide) (by decide)).2
    1 { index := 1, refreshToken := "b", globalRateLimitReset := some 3000 }
    3000 (by decide)
  exact ⟨h.1, h.2.1⟩

/-! ## C8 — `saveToDisk` merge policy of the usage-snapshot tracker -/

theorem smGet_cons (k1 : String) (v1 : CodexRateLimitSnapshot)
    (rest : SnapshotMap) (k0 : String) :
    smGet ((k1, v1) :: rest) k0 = if k0 = k1 then some v1 else smGet rest k0 := by
  by_cases h : k1 = k0
  · subst h
    simp [smGet, List.find?]
  · simp [smGet, List.find?, beq_eq_false_iff_ne.mpr h, Ne.symm h]

theorem smGet_none_of_not_mem (k0 : String) :
    ∀ m : SnapshotMap, k0 ∉ m.map Prod.fst → smGet m k0 = none := by
  intro m
  induction m with
  | nil => intro h; rfl
  | cons kv rest ih =>
    intro h
    obtain ⟨k1, v1⟩ := kv
    rw [smGet_cons]
    simp only [List.map_cons, List.mem_cons] at h
    push_neg at h
    rw [if_neg h.1, ih h.2]

theorem map_overwrite_id (k : String) (v : CodexRateLimitSnapshot) :
    ∀ m : SnapshotMap, m.any (fun p => p.1 == k) = false →
      m.map (fun p => if p.1 == k then (k, v) else p) = m := by
  intro m
  induction m with
  | nil => intro h; rfl
  | cons q rest ih =>
    intro h
    simp only [List.any_cons, Bool.or_eq_false_iff] at h
    simp only [List.map_cons]
    rw [if_neg (by simp [h.1]), ih h.2]

theorem map_overwrite_keys (k : String) (v : CodexRateLimitSnapshot) :
    ∀ m : SnapshotMap,
      (m.map (fun p => if p.1 == k then (k, v) else p)).map Prod.fst =
        m.map Prod.fst := by
  intro m
  induction m with
  | nil => rfl
  | cons q rest ih =>
    simp only [List.map_cons, List.cons.injEq]
    refine ⟨?_, ih⟩
    by_cases hq : q.1 == k
    · rw [if_pos hq]
      exact (eq_of_beq hq).symm
    · rw [if_neg hq]

theorem smGet_map_overwrite (k : String) (v : CodexRateLimitSnapshot)
    (k0 : String) :
    ∀ m : SnapshotMap, m.any (fun p => p.1 == k) = true →
      smGet (m.map (fun p => if p.1 == k then (k, v) else p)) k0 =
        (if k0 = k then some v else smGet m k0) := by
  intro m
  induction m with
  | nil => intro h; simp at h
  | cons q rest ih =>
    intro hany
    obtain ⟨k1, v1⟩ := q
    simp only [List.map_cons]
    by_cases h1 : k1 = k
    · subst h1
      rw [if_pos (by simp)]
      rw [smGet_cons, smGet_cons]
      by_cases h0 : k0 = k1
      · subst h0
        rw [if_pos rfl, if_pos rfl]
      · rw [if_neg h0, if_neg h0, if_neg h0]
        by_cases hr : rest.any (fun p => p.1 == k1) = true
        · rw [ih hr, if_neg h0]
        · rw [map_overwrite_id k1 v rest (Bool.eq_false_iff.mpr hr)]
    · rw [if_neg (by simpa using h1)]
      rw [smGet_cons, smGet_cons]
      by_cases h0 : k0 = k1
      · subst h0
        rw [if_pos rfl, if_pos rfl, if_neg h1]
      · rw [if_neg h0, if_neg h0]
        have hr : rest.any (fun p => p.1 == k) = true := by
          simp only [List.any_cons, Bool.or_eq_true] at hany
          rcases hany with h | h
          · exact absurd (eq_of_beq (by simpa using h)) h1
          · exact h
        rw [ih hr]

theorem smGet_append_single (k : String) (v : CodexRateLimitSnapshot)
    (k0 : String) :
    ∀ m : SnapshotMap, m.any (fun p => p.1 == k) = false →
      smGet (m ++ [(k, v)]) k0 =
        (if k0 = k then (if smGet m k0 = none then some v else smGet m k0)
         else smGet m k0) := by
  intro m
  induction m with
  | nil =>
    intro h
    simp only [List.nil_append]
    rw [smGet_cons]
    by_cases h0 : k0 = k
    · rw [if_pos h0, if_pos h0]
      rfl
    · rw [if_neg h0, if_neg h0]
  | cons q rest ih =>
    intro hany
    obtain ⟨k1, v1⟩ := q
    simp only [List.any_cons, Bool.or_eq_false_iff] at hany
    simp only [List.cons_append]
    rw [smGet_cons, smGet_cons]
    by_cases h0 : k0 = k1
    · subst h0
      rw [if_pos rfl, if_pos rfl]
      by_cases hk : k0 = k
      · subst hk
        have hcontra := hany.1
        simp at hcontra
      · rw [if_neg hk]
    · rw [if_neg h0, if_neg h0, ih hany.2]

theorem smGet_smSet (m : SnapshotMap) (k : String) (v : CodexRateLimitSnapshot)
    (k0 : String) :
    smGet (smSet m k v) k0 = if k0 = k then some v else smGet m k0 := by
  unfold smSet
  split
  · rename_i hany
    exact smGet_map_overwrite k v k0 m hany
  · rename_i hany
    have hany' : m.any (fun p => p.1 == k) = false := Bool.eq_false_iff.mpr hany
    rw [smGet_append_single k v k0 m hany']
    by_cases h0 : k0 = k
    · subst h0
      rw [if_pos rfl, if_pos rfl]
      have : smGet m k0 = none := by
        apply smGet_none_of_not_mem
        intro hmem
        simp only [List.mem_map] at hmem
        obtain ⟨p, hp, hpk⟩ := hmem
        have : m.any (fun p => p.1 == k0) = true := by
          rw [List.any_eq_true]
          exact ⟨p, hp, by simp [hpk]⟩
        rw [this] at hany'
        cases hany'
      rw [this]
      simp
    · rw [if_neg h0, if_neg h0]

theorem smSet_nodup (m : SnapshotMap) (k : String) (v : CodexRateLimitSnapshot)
    (h : (m.map Prod.fst).Nodup) : ((smSet m k v).map Prod.fst).Nodup := by
  unfold smSet
  split
  · rw [map_overwrite_keys]
    exact h
  · rename_i hany
    have hnm : k ∉ m.map Prod.fst := by
      intro hmem
      apply hany
      simp only [List.mem_map] at hmem
      obtain ⟨p, hp, hpk⟩ := hmem
      rw [List.any_eq_true]
      exact ⟨p, hp, by simp [hpk]⟩
    simp only [List.map_append, List.map_cons, List.map_nil, List.nodup_append]
    exact ⟨h, List.nodup_singleton k, by simpa using hnm⟩

theorem mergeStep_get_ne (acc : SnapshotMap)
    (kv : String × CodexRateLimitSnapshot) (k0 : String) (h : k0 ≠ kv.1) :
    smGet (mergeStep acc kv) k0 = smGet acc k0 := by
  unfold mergeStep
  split
  · rw [smGet_smSet, if_neg h]
  · split
    · rw [smGet_smSet, if_neg h]
    · rfl

theorem mergeStep_get_eq (acc : SnapshotMap)
    (kv : String × CodexRateLimitSnapshot) :
    smGet (mergeStep acc kv) kv.1 =
      (match smGet acc kv.1 with
       | none => some kv.2
       | some dv =>
         if dv.updatedAt < kv.2.updatedAt then some kv.2 else some dv) := by
  unfold mergeStep
  cases hg : smGet acc kv.1 with
  | none => rw [smGet_smSet, if_pos rfl]
  | some dv =>
    show smGet (if dv.updatedAt < kv.2.updatedAt then smSet acc kv.1 kv.2
                else acc) kv.1 =
      (if dv.updatedAt < kv.2.updatedAt then some kv.2 else some dv)
    by_cases hlt : dv.updatedAt < kv.2.updatedAt
    · rw [if_pos hlt, if_pos hlt, smGet_smSet, if_pos rfl]
    · rw [if_neg hlt, if_neg hlt]
      exact hg

theorem mergeStep_nodup (acc : SnapshotMap)
    (kv : String × CodexRateLimitSnapshot)
    (h : (acc.map Prod.fst).Nodup) : ((mergeStep acc kv).map Prod.fst).Nodup := by
  unfold mergeStep
  split
  · exact smSet_nodup _ _ _ h
  · split
    · exact smSet_nodup _ _ _ h
    · exact h

theorem mergeFold_nodup :
    ∀ (mem acc : SnapshotMap), (acc.map Prod.fst).Nodup →
      ((mem.foldl mergeStep acc).map Prod.fst).Nodup := by
  intro mem
  induction mem with
  | nil => intro acc h; exact h
  | cons kv rest ih =>
    intro acc h
    exact ih (mergeStep acc kv) (mergeStep_nodup acc kv h)

theorem mergeFold_get :
    ∀ (mem : SnapshotMap), (mem.map Prod.fst).Nodup →
      ∀ (acc : SnapshotMap) (k0 : String),
        smGet (mem.foldl mergeStep acc) k0 =
          (match smGet mem k0 with
           | none => smGet acc k0
           | some mv =>
             match smGet acc k0 with
             | none => some mv
             | some dv =>
               if dv.updatedAt < mv.updatedAt then some mv else some dv) := by
  intro mem
  induction mem with
  | nil => intro h acc k0; rfl
  | cons kv rest ih =>
    intro h acc k0
    obtain ⟨k1, v1⟩ := kv
    simp only [List.map_cons, List.nodup_cons] at h
    obtain ⟨hk1, hrest⟩ := h
    simp only [List.foldl_cons]
    by_cases h0 : k0 = k1
    · subst h0
      rw [ih hrest (mergeStep acc (k0, v1)) k0]
      have hnone : smGet rest k0 = none := smGet_none_of_not_mem k0 rest hk1
      rw [hnone]
      rw [smGet_cons, if_pos rfl]
      exact mergeStep_get_eq acc (k0, v1)
    · rw [ih hrest (mergeStep acc (k1, v1)) k0]
      rw [smGet_cons, if_neg h0]
      rw [mergeStep_get_ne acc (k1, v1) k0 h0]

theorem smGet_filter (p : String × CodexRateLimitSnapshot → Bool) :
    ∀ (m : SnapshotMap), (m.map Prod.fst).Nodup → ∀ k0,
      smGet (m.filter p) k0 =
        (match smGet m k0 with
         | some v => if p (k0, v) then some v else none
         | none => none) := by
  intro m
  induction m with
  | nil => intro h k0; rfl
  | cons kv rest ih =>
    intro h k0
    obtain ⟨k1, v1⟩ := kv
    simp only [List.map_cons, List.nodup_cons] at h
    obtain ⟨hk1, hrest⟩ := h
    by_cases hp : p (k1, v1) = true
    · rw [List.filter_cons_of_pos hp, smGet_cons, smGet_cons]
      by_cases h0 : k0 = k1
      · subst h0
        rw [if_pos rfl, if_pos rfl]
        simp [hp]
      · rw [if_neg h0, if_neg h0, ih hrest k0]
    · rw [List.filter_cons_of_neg (by simpa using hp), smGet_cons]
      by_cases h0 : k0 = k1
      · subst h0
        rw [if_pos rfl, ih hrest k0, smGet_none_of_not_mem k0 rest hk1]
        simp [hp]
      · rw [if_neg h0, ih hrest k0]

/-- C8: with a parsed on-disk array, `saveToDisk` writes the merge of the
two maps — for a key on both sides the strictly newer `updatedAt` wins
(the disk entry wins ties), keys only on disk are retained — after pruning
every entry older than the 7-day retention window; consequently every
written entry is within the retention window. -/
theorem claim8_saveToDisk_merge (memory disk : SnapshotMap) (now : Nat)
    (hm : (memory.map Prod.fst).Nodup) (hd : (disk.map Prod.fst).Nodup) :
    let result := mergeSnapshots memory (some disk) now
    (∀ k mv dv, smGet memory k = some mv → smGet disk k = some dv →
      smGet result k =
        (if SNAPSHOT_RETENTION_MS <
            now - (if dv.updatedAt < mv.updatedAt then mv else dv).updatedAt
         then none
         else some (if dv.updatedAt < mv.updatedAt then mv else dv)))
    ∧ (∀ k dv, smGet disk k = some dv → smGet memory k = none →
      smGet result k =
        (if SNAPSHOT_RETENTION_MS < now - dv.updatedAt then none else some dv))
    ∧ (∀ k v, smGet result k = some v →
        now - v.updatedAt ≤ SNAPSHOT_RETENTION_MS) := by
  intro result
  have hnodup : (((memory.foldl mergeStep disk)).map Prod.fst).Nodup :=
    mergeFold_nodup memory disk hd
  have hres : ∀ k0, smGet result k0 =
      (match smGet (memory.foldl mergeStep disk) k0 with
       | some v =>
         if !(decide (SNAPSHOT_RETENTION_MS < now - v.updatedAt))
         then some v else none
       | none => none) := by
    intro k0
    show smGet ((memory.foldl mergeStep disk).filter _) k0 = _
    exact smGet_filter _ (memory.foldl mergeStep disk) hnodup k0
  refine ⟨?_, ?_, ?_⟩
  · intro k mv dv hmem hdisk
    have hfold := mergeFold_get memory hm disk k
    rw [hmem, hdisk] at hfold
    rw [hres k, hfold]
    by_cases hcmp : dv.updatedAt < mv.updatedAt
    · rw [if_pos hcmp]
      simp only [if_pos hcmp]
      by_cases hp : SNAPSHOT_RETENTION_MS < now - mv.updatedAt
      · simp [hp]
      · simp [hp]
    · rw [if_neg hcmp]
      simp only [if_neg hcmp]
      by_cases hp : SNAPSHOT_RETENTION_MS < now - dv.updatedAt
      · simp [hp]
      · simp [hp]
  · intro k dv hdisk hmem
    have hfold := mergeFold_get memory hm disk k
    rw [hmem, hdisk] at hfold
    rw [hres k, hfold]
    by_cases hp : SNAPSHOT_RETENTION_MS < now - dv.updatedAt
    · simp [hp]
    · simp [hp]
  · intro k v hv
    rw [hres k] at hv
    cases hg : smGet (memory.foldl mergeStep disk) k with
    | none => rw [hg] at hv; cases hv
    | some w =>
      rw [hg] at hv
      simp only at hv
      by_cases hp : SNAPSHOT_RETENTION_MS < now - w.updatedAt
      · simp [hp] at hv
      · simp [hp] at hv
        rw [← hv]
        omega

/-- A minimal concrete snapshot for the C8 witness. -/
def snapC8 (t : Nat) : CodexRateLimitSnapshot :=
  { accountId := "a", email := "e", plan := "p", updatedAt := t,
    primary := none, secondary := none, credits := none }

/-- Witness for C8: memory newer than disk on `"k1"` (memory wins), `"k2"`
only on disk (retained), nothing beyond retention (nothing pruned). -/
theorem claim8_witness :
    smGet (mergeSnapshots [("k1", snapC8 200)]
      (some [("k1", snapC8 100), ("k2", snapC8 150)]) 300) "k1" =
        some (snapC8 200) ∧
    smGet (mergeSnapshots [("k1", snapC8 200)]
      (some [("k1", snapC8 100), ("k2", snapC8 150)]) 300) "k2" =
        some (snapC8 150) ∧
    300 - (snapC8 150).updatedAt ≤ SNAPSHOT_RETENTION_MS := by
  have h := claim8_saveToDisk_merge [("k1", snapC8 200)]
    [("k1", snapC8 100), ("k2", snapC8 150)] 300 (by decide) (by decide)
  have h1 := h.1 "k1" (snapC8 200) (snapC8 100) (by decide) (by decide)
  have h2 := h.2.1 "k2" (snapC8 150) (by decide) (by decide)
  have h2' : smGet (mergeSnapshots [("k1", snapC8 200)]
      (some [("k1", snapC8 100), ("k2", snapC8 150)]) 300) "k2" =
        some (snapC8 150) := by
    rw [h2]; decide
  refine ⟨?_, h2', h.2.2 "k2" (snapC8 150) h2'⟩
  rw [h1]; decide

/-! ## Orchestrator lemmas -/

theorem executeRequest_zero (ctx : OrchCtx) (st : OrchState) (a : Account)
    (r : Nat) : executeRequest ctx 0 st a r = none := rfl

theorem executeRequest_succ (ctx : OrchCtx) (fuel : Nat) (st : OrchState)
    (a : Account) (r : Nat) :
    executeRequest ctx (fuel + 1) st a r =
      orchStep ctx (fun st a r => executeRequest ctx fuel st a r) st a r := rfl

theorem mem_set {α : Type} :
    ∀ (l : List α) (i : Nat) (v b : α), b ∈ l.set i v → b = v ∨ b ∈ l := by
  intro l
  induction l with
  | nil => intro i v b h; simp at h
  | cons x rest ih =>
    intro i v b h
    cases i with
    | zero =>
      simp only [List.set_cons_zero, List.mem_cons] at h
      rcases h with h | h
      · exact Or.inl h
      · exact Or.inr (List.mem_cons_of_mem x h)
    | succ i =>
      simp only [List.set_cons_succ, List.mem_cons] at h
      rcases h with h | h
      · exact Or.inr (by simp [h])
      · rcases ih i v b h with h' | h'
        · exact Or.inl h'
        · exact Or.inr (List.mem_cons_of_mem x h')

theorem updateFirstByIndex_length (idx : Nat) (f : Account → Account) :
    ∀ l : List Account, (updateFirstByIndex l idx f).length = l.length := by
  intro l
  induction l with
  | nil => rfl
  | cons a rest ih =>
    simp only [updateFirstByIndex]
    split
    · rfl
    · simpa using ih

theorem mem_updateFirstByIndex (idx : Nat) (f : Account → Account) :
    ∀ (l : List Account) (b : Account), b ∈ updateFirstByIndex l idx f →
      b ∈ l ∨ ∃ c ∈ l, b = f c := by
  intro l
  induction l with
  | nil => intro b h; simp [updateFirstByIndex] at h
  | cons a rest ih =>
    intro b h
    simp only [updateFirstByIndex] at h
    split at h
    · rcases List.mem_cons.mp h with h' | h'
      · exact Or.inr ⟨a, List.mem_cons_self a rest, h'⟩
      · exact Or.inl (List.mem_cons_of_mem a h')
    · rcases List.mem_cons.mp h with h' | h'
      · exact Or.inl (by simp [h'])
      · rcases ih b h' with h'' | ⟨c, hc, hbc⟩
        · exact Or.inl (List.mem_cons_of_mem a h'')
        · exact Or.inr ⟨c, List.mem_cons_of_mem a hc, hbc⟩

theorem limitMut_expires (cfg : MultiAccountConfig) (t : Nat)
    (model : Option String) (a : Account) :
    (limitMut cfg t model a).expires = a.expires := by
  unfold limitMut; split <;> rfl

theorem limitMut_index (cfg : MultiAccountConfig) (t : Nat)
    (model : Option String) (a : Account) :
    (limitMut cfg t model a).index = a.index := by
  unfold limitMut; split <;> rfl

theorem markRateLimited_spec (mgr : AccountManager) (account : Account)
    (ms : Nat) (model : Option String) (now : Nat) :
    (markRateLimited mgr account ms model now).1.accounts.length =
      mgr.accounts.length ∧
    (markRateLimited mgr account ms model now).1.config = mgr.config ∧
    (∀ b ∈ (markRateLimited mgr account ms model now).1.accounts,
      b ∈ mgr.accounts ∨ ∃ c ∈ mgr.accounts, b.expires = c.expires) ∧
    (markRateLimited mgr account ms model now).2.index = account.index ∧
    (markRateLimited mgr account ms model now).2.expires = account.expires := by
  refine ⟨updateFirstByIndex_length _ _ _, rfl, ?_, limitMut_index _ _ _ _,
    limitMut_expires _ _ _ _⟩
  intro b hb
  rcases mem_updateFirstByIndex _ _ _ b hb with h | ⟨c, hc, hbc⟩
  · exact Or.inl h
  · exact Or.inr ⟨c, hc, by rw [hbc]; exact limitMut_expires _ _ _ _⟩

theorem markRefreshFailed_noRemove (mgr : AccountManager) (account : Account)
    (e : String) (hni : strIncludes e "invalid_grant" = false) :
    markRefreshFailed mgr account e =
      ({ mgr with accounts :=
          updateFirstByIndex mgr.accounts account.index (failMut e) },
       failMut e account) := by
  simp only [markRefreshFailed]
  rw [if_neg]
  · have : (failMut e account).index = account.index := (failMut_spec e account).2.2.2.1
    rw [this]
  · simp [hni]

theorem strIncludes_401 : strIncludes "401 Unauthorized" "invalid_grant" = false := by
  decide

theorem strIncludes_refresh_failed :
    strIncludes "Token refresh failed" "invalid_grant" = false := by
  decide

theorem getNextAvailableAccount_state (mgr : AccountManager)
    (model : Option String) (now pid : Nat) :
    (getNextAvailableAccount mgr model now pid).2.accounts.length =
      mgr.accounts.length ∧
    (getNextAvailableAccount mgr model now pid).2.config = mgr.config ∧
    (∀ b ∈ (getNextAvailableAccount mgr model now pid).2.accounts,
      b ∈ mgr.accounts ∨ ∃ c ∈ mgr.accounts, b.expires = c.expires) ∧
    (∀ a, (getNextAvailableAccount mgr model now pid).1 = some a →
      ∃ c ∈ mgr.accounts, a = { c with lastUsed := some now }) := by
  by_cases hE : mgr.accounts.length = 0
  · have : getNextAvailableAccount mgr model now pid = (none, mgr) := by
      simp [getNextAvailableAccount, hE]
    rw [this]
    refine ⟨rfl, rfl, fun b hb => Or.inl hb, ?_⟩
    intro a ha; cases ha
  · have hn : 0 < mgr.accounts.length := Nat.pos_of_ne_zero hE
    cases hs : scanAux mgr.config mgr.accounts model now
        (if mgr.config.accountSelectionStrategy == .roundRobin
         then (initStrategyState mgr pid).roundRobinCursor
         else (initStrategyState mgr pid).activeIndex) 0 mgr.accounts.length with
    | some idx =>
      obtain ⟨hlt, -⟩ := scanAux_some_pred mgr.config mgr.accounts model now _ hn
        mgr.accounts.length 0 idx hs
      have hmem : mgr.accounts.getD idx default ∈ mgr.accounts :=
        getD_mem default mgr.accounts idx hlt
      have hres : getNextAvailableAccount mgr model now pid =
          (some { mgr.accounts.getD idx default with lastUsed := some now },
           { initStrategyState mgr pid with
               activeIndex := idx,
               roundRobinCursor :=
                 if mgr.config.accountSelectionStrategy == .roundRobin
                 then (idx + 1) % mgr.accounts.length
                 else (initStrategyState mgr pid).roundRobinCursor,
               accounts := mgr.accounts.set idx
                 { mgr.accounts.getD idx default with lastUsed := some now } }) := by
        simp only [getNextAvailableAccount, if_neg hE, initStrategyState_accounts,
          initStrategyState_config, hs]
      rw [hres]
      refine ⟨by simp, by simp [initStrategyState_config], ?_, ?_⟩
      · intro b hb
        simp only at hb
        rcases mem_set mgr.accounts idx _ b hb with h | h
        · exact Or.inr ⟨mgr.accounts.getD idx default, hmem, by rw [h]⟩
        · exact Or.inl h
      · intro a ha
        simp only [Option.some.injEq] at ha
        exact ⟨mgr.accounts.getD idx default, hmem, ha.symm⟩
    | none =>
      cases hl : leastLoop mgr.config model mgr.accounts 0 none with
      | none =>
        have hres : getNextAvailableAccount mgr model now pid =
            (none, initStrategyState mgr pid) := by
          simp only [getNextAvailableAccount, if_neg hE, initStrategyState_accounts,
            initStrategyState_config, hs, hl]
        rw [hres]
        refine ⟨by simp [initStrategyState_accounts],
          by simp [initStrategyState_config], ?_, ?_⟩
        · intro b hb
          rw [initStrategyState_accounts] at hb
          exact Or.inl hb
        · intro a ha; cases ha
      | some t =>
        obtain ⟨p0, fb, rt⟩ := t
        obtain ⟨-, -, hprov, -, -⟩ :=
          leastLoop_spec mgr.config model mgr.accounts 0 none
            (by intro pb bb rb hh; cases hh) p0 fb rt hl
        have hmem : fb ∈ mgr.accounts := by
          rcases hprov with e | ⟨-, hget, -⟩
          · cases e
          · exact mem_of_getElem? mgr.accounts (p0 - 0) fb hget
        have hres : getNextAvailableAccount mgr model now pid =
            (some { fb with lastUsed := some now },
             { initStrategyState mgr pid with
                 activeIndex := ({ fb with lastUsed := some now } : Account).index,
                 roundRobinCursor :=
                   if mgr.config.accountSelectionStrategy == .roundRobin
                   then (({ fb with lastUsed := some now } : Account).index + 1) %
                     mgr.accounts.length
                   else (initStrategyState mgr pid).roundRobinCursor,
                 accounts := mgr.accounts.set p0
                   { fb with lastUsed := some now } }) := by
          simp only [getNextAvailableAccount, if_neg hE, initStrategyState_accounts,
            initStrategyState_config, hs, hl]
        rw [hres]
        refine ⟨by simp, by simp [initStrategyState_config], ?_, ?_⟩
        · intro b hb
          simp only at hb
          rcases mem_set mgr.accounts p0 _ b hb with h | h
          · exact Or.inr ⟨fb, hmem, by rw [h]⟩
          · exact Or.inl h
        · intro a ha
          simp only [Option.some.injEq] at ha
          exact ⟨fb, hmem, ha.symm⟩

theorem ensureValidToken_none (decode : String → Option JwtPayload)
    (refreshFn : String → RefreshOutcome) (mgr : AccountManager) (a : Account)
    (now : Nat) (h : a.expires = none) :
    ensureValidToken decode refreshFn mgr a now = (true, mgr, a) := by
  simp [ensureValidToken, h, natTruthy]

/-- A step returning `some` under `rec1` returns the same value under any
`rec2` that extends `rec1` on `some` results. -/
theorem orchStep_congr (ctx : OrchCtx)
    (rec1 rec2 : OrchState → Account → Nat → Option (OrchResponse × OrchState))
    (hrec : ∀ st a r x, rec1 st a r = some x → rec2 st a r = some x)
    (st : OrchState) (a : Account) (r : Nat) (x : OrchResponse × OrchState)
    (h : orchStep ctx rec1 st a r = some x) :
    orchStep ctx rec2 st a r = some x := by
  simp only [orchStep] at h ⊢
  split at h
  · rename_i h1
    rw [if_pos h1]
    split at h
    · rename_i n hsel
      split at h
      · rename_i h2
        rw [if_pos h2]
        exact h
      · rename_i h2
        rw [if_neg h2]
        exact hrec _ _ _ _ h
    · rename_i hsel
      exact h
  · rename_i h1
    rw [if_neg h1]
    split at h
    · rename_i h2
      rw [if_pos h2]
      exact h
    · rename_i h2
      rw [if_neg h2]
      split at h
      · rename_i h3
        rw [if_pos h3]
        split at h
        · rename_i h4
          rw [if_pos h4]
          split at h
          · rename_i n hsel
            split at h
            · rename_i h5
              rw [if_pos h5]
              exact h
            · rename_i h5
              rw [if_neg h5]
              exact hrec _ _ _ _ h
          · rename_i hsel
            exact h
        · rename_i h4
          rw [if_neg h4]
          exact h
      · rename_i h3
        rw [if_neg h3]
        split at h
        · rename_i h4
          rw [if_pos h4]
          split at h
          · rename_i n hsel
            split at h
            · rename_i h5
              rw [if_pos h5]
              exact h
            · rename_i h5
              rw [if_neg h5]
              exact hrec _ _ _ _ h
          · rename_i hsel
            exact h
        · rename_i h4
          rw [if_neg h4]
          exact h

theorem executeRequest_mono (ctx : OrchCtx) :
    ∀ (fuel : Nat) (st : OrchState) (a : Account) (r : Nat)
      (x : OrchResponse × OrchState),
      executeRequest ctx fuel st a r = some x →
      executeRequest ctx (fuel + 1) st a r = some x := by
  intro fuel
  induction fuel with
  | zero => intro st a r x h; rw [executeRequest_zero] at h; cases h
  | succ fuel ih =>
    intro st a r x h
    rw [executeRequest_succ] at h ⊢
    exact orchStep_congr ctx _ _ (fun st a r x hh => ih st a r x hh) st a r x h

theorem executeRequest_mono_le (ctx : OrchCtx) (f1 f2 : Nat) (st : OrchState)
    (a : Account) (r : Nat) (x : OrchResponse × OrchState) (hle : f1 ≤ f2)
    (h : executeRequest ctx f1 st a r = some x) :
    executeRequest ctx f2 st a r = some x := by
  obtain ⟨k, rfl⟩ := Nat.exists_eq_add_of_le hle
  induction k with
  | zero => simpa using h
  | succ k ihk =>
    rw [show f1 + (k + 1) = (f1 + k) + 1 by omega]
    exact executeRequest_mono ctx _ _ _ _ _ (ihk (by omega))

theorem pluginFetch_mono_le (ctx : OrchCtx) (f1 f2 : Nat) (st : OrchState)
    (x : OrchResponse × OrchState) (hle : f1 ≤ f2)
    (h : pluginFetch ctx f1 st = some x) : pluginFetch ctx f2 st = some x := by
  simp only [pluginFetch] at h ⊢
  split at h
  · rename_i hsel
    exact h
  · rename_i account hsel
    exact executeRequest_mono_le ctx f1 f2 _ account 0 x hle h

theorem expiresNone_trans {l1 l2 : List Account}
    (h12 : ∀ b ∈ l2, b ∈ l1 ∨ ∃ c ∈ l1, b.expires = c.expires)
    (h1 : ∀ b ∈ l1, b.expires = none) : ∀ b ∈ l2, b.expires = none := by
  intro b hb
  rcases h12 b hb with h | ⟨c, hc, he⟩
  · exact h1 b h
  · rw [he]; exact h1 c hc

/-- `executeRequest` terminates: when no account carries an expiry (so the
token-refresh branch never recurses), fuel `poolSize − retryCount + 1`
always suffices to produce a response. -/
theorem executeRequest_terminates (ctx : OrchCtx) :
    ∀ (fuel : Nat) (st : OrchState) (account : Account) (r : Nat),
      (∀ b ∈ st.mgr.accounts, b.expires = none) → account.expires = none →
      st.mgr.accounts.length - r < fuel →
      (executeRequest ctx fuel st account r).isSome = true := by
  intro fuel
  induction fuel with
  | zero => intro st a r hP ha hf; omega
  | succ fuel ih =>
    intro st a r hP ha hf
    rw [executeRequest_succ]
    simp only [orchStep,
      ensureValidToken_none ctx.decode ctx.refreshFn st.mgr a ctx.now ha]
    split
    · rename_i h1
      simp at h1
    · split
      · simp
      · split
        · rename_i h3
          split
          · rename_i h4
            obtain ⟨hmL, hmC, hmP, hmI, hmE⟩ := markRateLimited_spec st.mgr a
              (computeRetryAfterMs (ctx.upstream st.fetchCount) ctx.now)
              ctx.model ctx.now
            have hPmk := expiresNone_trans hmP hP
            obtain ⟨hgL, hgC, hgP, hgS⟩ := getNextAvailableAccount_state
              (markRateLimited st.mgr a
                (computeRetryAfterMs (ctx.upstream st.fetchCount) ctx.now)
                ctx.model ctx.now).1 ctx.model ctx.now ctx.pid
            split
            · rename_i n hsel
              split
              · simp
              · rename_i h5
                obtain ⟨c, hc, hnc⟩ := hgS n hsel
                apply ih
                · exact expiresNone_trans hgP hPmk
                · rw [hnc]
                  exact hPmk c hc
                · rw [hmL] at h4
                  simp only [hgL, hmL]
                  omega
            · simp
          · simp
        · split
          · rename_i h3
            have hmk := markRefreshFailed_noRemove st.mgr a "401 Unauthorized"
              strIncludes_401
            have hmL : (markRefreshFailed st.mgr a
                "401 Unauthorized").1.accounts.length = st.mgr.accounts.length := by
              rw [hmk]
              exact updateFirstByIndex_length _ _ _
            have hPmk : ∀ b ∈ (markRefreshFailed st.mgr a
                "401 Unauthorized").1.accounts, b.expires = none := by
              rw [hmk]
              intro b hb
              rcases mem_updateFirstByIndex _ _ _ b hb with hbm | ⟨c, hc, hbc⟩
              · exact hP b hbm
              · rw [hbc, (failMut_spec _ _).2.2.2.2]
                exact hP c hc
            obtain ⟨hgL, hgC, hgP, hgS⟩ := getNextAvailableAccount_state
              (markRefreshFailed st.mgr a "401 Unauthorized").1
              ctx.model ctx.now ctx.pid
            split
            · rename_i n hsel
              split
              · simp
              · rename_i h5
                obtain ⟨c, hc, hnc⟩ := hgS n hsel
                have hlen1 : 0 < (markRefreshFailed st.mgr a
                    "401 Unauthorized").1.accounts.length :=
                  List.length_pos.mpr (List.ne_nil_of_mem hc)
                apply ih
                · exact expiresNone_trans hgP hPmk
                · rw [hnc]
                  exact hPmk c hc
                · simp only [hgL, hmL]
                  rw [hmL] at hlen1
                  omega
            · simp
          · simp

/-! ## C1 — bounded retry recursion -/

/-- A round-robin configuration, for the refresh-failover loop scenario. -/
def cfgL : MultiAccountConfig :=
  { DEFAULT_MULTI_ACCOUNT_CONFIG with accountSelectionStrategy := .roundRobin }

/-- An account flagged mid-refresh, with a stale expiry and no cached
access token: `ensureValidToken` hits its `isRefreshing` early return and
yields `!!account.access = false` without touching any state
(manager.ts, lines 405–407). -/
def aL0 : Account :=
  { index := 0, refreshToken := "r0", accountId := some "a0",
    expires := some 5, isRefreshing := true }

def aL1 : Account :=
  { index := 1, refreshToken := "r1", accountId := some "a1",
    expires := some 5, isRefreshing := true }

/-- A two-account round-robin pool whose accounts are both flagged
mid-refresh without access tokens. -/
def mgrL : AccountManager :=
  { accounts := [aL0, aL1], activeIndex := 0, roundRobinCursor := 0,
    strategyInitialized := false, config := cfgL }

def ctxL : OrchCtx :=
  { now := 1000000, pid := 0, decode := fun _ => none,
    refreshFn := fun _ => .failed,
    upstream := fun _ => { status := 200 }, model := none }

def aL0u : Account := { aL0 with lastUsed := some 1000000 }

def aL1u : Account := { aL1 with lastUsed := some 1000000 }

/-- The pool state after the initial selection of `pluginFetch`. -/
def mgrLoop0 : AccountManager :=
  { accounts := [aL0u, aL1], activeIndex := 0, roundRobinCursor := 1,
    strategyInitialized := true, config := cfgL }

/-- One of the two states of the refresh-failover ping-pong cycle: the
round-robin cursor and active index alternate while nothing else changes. -/
def mgrLoopA : AccountManager :=
  { accounts := [aL0u, aL1u], activeIndex := 1, roundRobinCursor := 0,
    strategyInitialized := true, config := cfgL }

def mgrLoopB : AccountManager :=
  { accounts := [aL0u, aL1u], activeIndex := 0, roundRobinCursor := 1,
    strategyInitialized := true, config := cfgL }

/-- The refresh-failover ping-pong: from either cycle state,
`ensureValidToken` returns `false` without mutating anything, reselection
hands back the *other* account, and the recursion re-enters the cycle with
the same `retryCount` (0) — so no fuel ever suffices. -/
theorem refreshLoopNone : ∀ (n : Nat),
    executeRequest ctxL n { mgr := mgrLoopA, fetchCount := 0 } aL1u 0 = none ∧
    executeRequest ctxL n { mgr := mgrLoopB, fetchCount := 0 } aL0u 0 = none := by
  intro n
  induction n with
  | zero => exact ⟨rfl, rfl⟩
  | succ n ih =>
    constructor
    · rw [executeRequest_succ,
        show orchStep ctxL (fun st a r => executeRequest ctxL n st a r)
            { mgr := mgrLoopA, fetchCount := 0 } aL1u 0 =
          executeRequest ctxL n { mgr := mgrLoopB, fetchCount := 0 } aL0u 0
          from rfl]
      exact ih.2
    · rw [executeRequest_succ,
        show orchStep ctxL (fun st a r => executeRequest ctxL n st a r)
            { mgr := mgrLoopB, fetchCount := 0 } aL0u 0 =
          executeRequest ctxL n { mgr := mgrLoopA, fetchCount := 0 } aL1u 0
          from rfl]
      exact ih.1

/-- The concrete request over `mgrL` yields no response at any recursion
depth: `executeRequest` diverges on it. -/
def loopRequestDiverges : Prop :=
  ∀ (fuel : Nat), pluginFetch ctxL fuel { mgr := mgrL, fetchCount := 0 } = none

/-- C1 counterexample: the claim "for every request ... recursion
terminates / the whole recursion is bounded" fails.  On a round-robin pool
of two accounts flagged `isRefreshing` with stale expiries and no access
tokens, `ensureValidToken` returns false with no state change, reselection
alternates the two accounts, and `executeRequest` recurses forever at
constant `retryCount` — the request yields no response at any fuel. -/
theorem claim1_counterexample : loopRequestDiverges := by
  intro fuel
  rw [show pluginFetch ctxL fuel { mgr := mgrL, fetchCount := 0 } =
      executeRequest ctxL fuel { mgr := mgrLoop0, fetchCount := 0 } aL0u 0
      from rfl]
  cases fuel with
  | zero => rfl
  | succ n =>
    rw [executeRequest_succ,
      show orchStep ctxL (fun st a r => executeRequest ctxL n st a r)
          { mgr := mgrLoop0, fetchCount := 0 } aL0u 0 =
        executeRequest ctxL n { mgr := mgrLoopA, fetchCount := 0 } aL1u 0
        from rfl]
    exact (refreshLoopNone n).1

/-- A three-account pool with no token expiries and resolved account ids. -/
def accountsC1 : List Account :=
  [{ index := 0, refreshToken := "rt0", accountId := some "acc0" },
   { index := 1, refreshToken := "rt1", accountId := some "acc1" },
   { index := 2, refreshToken := "rt2", accountId := some "acc2" }]

def mgrC1 : AccountManager :=
  { accounts := accountsC1, activeIndex := 0, roundRobinCursor := 0,
    strategyInitialized := false, config := DEFAULT_MULTI_ACCOUNT_CONFIG }

/-- An upstream that always answers 429 with no reset information. -/
def ctxC1 : OrchCtx :=
  { now := 1000000, pid := 0,
    decode := fun _ => none,
    refreshFn := fun _ => .failed,
    upstream := fun _ => { status := 429 },
    model := some "gpt-test" }

/-- C1 (amended): the 429/401 retry counters do bound their own paths, but
the token-refresh failover path carries no bound, so the recursion as a
whole is *not* bounded.
1. When no account carries an expiry — so the token-refresh failover path
   is off — fuel `poolSize − retryCount + 1` always yields a response.
2. A 429 with the budget spent (`¬(retryCount < poolSize − 1)`) is returned
   to the caller as a 429 after marking the account, with no further attempt.
3. A 401 with `retryCount ≥ 1` is returned to the caller unmodified, with
   no further attempt.
4. The spec's scenario: an always-429 upstream over a 3-account pool issues
   exactly 3 transport attempts and hands the caller the 429, at any
   sufficient fuel.
5. The refresh-failover reselect recursion is exempt from the retry budget
   and unbounded: a round-robin pool of two `isRefreshing`-flagged accounts
   without access tokens recurses forever at constant `retryCount`, never
   producing a response at any fuel. -/
theorem claim1_bounded_retry_amended :
    (∀ (ctx : OrchCtx) (fuel : Nat) (st : OrchState) (account : Account) (r : Nat),
      (∀ b ∈ st.mgr.accounts, b.expires = none) → account.expires = none →
      st.mgr.accounts.length - r < fuel →
      (executeRequest ctx fuel st account r).isSome = true)
    ∧ (∀ (ctx : OrchCtx) (fuel : Nat) (st : OrchState) (a : Account) (r : Nat),
      a.expires = none → strTruthy (resolveAccountId ctx.decode a) = true →
      (ctx.upstream st.fetchCount).status = 429 →
      st.mgr.accounts.length - 1 ≤ r →
      executeRequest ctx (fuel + 1) st a r =
        some ({ status := 429, tag := .upstreamError },
              { mgr := (markRateLimited st.mgr a
                  (computeRetryAfterMs (ctx.upstream st.fetchCount) ctx.now)
                  ctx.model ctx.now).1,
                fetchCount := st.fetchCount + 1 }))
    ∧ (∀ (ctx : OrchCtx) (fuel : Nat) (st : OrchState) (a : Account) (r : Nat),
      a.expires = none → strTruthy (resolveAccountId ctx.decode a) = true →
      (ctx.upstream st.fetchCount).status = 401 → 1 ≤ r →
      executeRequest ctx (fuel + 1) st a r =
        some ({ status := 401, tag := .upstreamError },
              { mgr := st.mgr, fetchCount := st.fetchCount + 1 }))
    ∧ (∀ fuel, 3 ≤ fuel →
      (pluginFetch ctxC1 fuel { mgr := mgrC1, fetchCount := 0 }).map
          (fun y => (y.1, y.2.fetchCount)) =
        some ({ status := 429, tag := .upstreamError }, 3))
    ∧ (∀ (fuel : Nat),
      pluginFetch ctxL fuel { mgr := mgrL, fetchCount := 0 } = none) := by
  refine ⟨?_, ?_, ?_, ?_, ?_⟩
  · intro ctx fuel st account r hP ha hf
    exact executeRequest_terminates ctx fuel st account r hP ha hf
  · intro ctx fuel st a r ha hid h429 hbudget
    rw [executeRequest_succ]
    simp only [orchStep,
      ensureValidToken_none ctx.decode ctx.refreshFn st.mgr a ctx.now ha]
    have hfin : finalizeResponse (ctx.upstream st.fetchCount) =
        { status := 429, tag := .upstreamError } := by
      simp [finalizeResponse, respOk, handleErrorStatus, h429]
    split
    · rename_i h1; simp at h1
    · split
      · rename_i h2
        rw [hid] at h2
        simp at h2
      · split
        · rename_i h4
          have hmL := (markRateLimited_spec st.mgr a
            (computeRetryAfterMs (ctx.upstream st.fetchCount) ctx.now)
            ctx.model ctx.now).1
          rw [hmL] at h4
          omega
        · rw [hfin]
  · intro ctx fuel st a r ha hid h401 hr
    rw [executeRequest_succ]
    simp only [orchStep,
      ensureValidToken_none ctx.decode ctx.refreshFn st.mgr a ctx.now ha]
    have hfin : finalizeResponse (ctx.upstream st.fetchCount) =
        { status := 401, tag := .upstreamError } := by
      simp [finalizeResponse, respOk, handleErrorStatus, h401]
    split
    · rename_i h1; simp at h1
    · split
      · rename_i h2
        rw [hid] at h2
        simp at h2
      · split
        · rename_i h3
          rw [h401] at h3
          omega
        · split
          · rename_i h4
            exact absurd h4.2 (by omega)
          · rw [hfin]
  · intro fuel hfuel
    obtain ⟨k, rfl⟩ : ∃ k, fuel = 3 + k := ⟨fuel - 3, by omega⟩
    have h3 : ∃ x, pluginFetch ctxC1 3 { mgr := mgrC1, fetchCount := 0 } = some x := by
      have hs : (pluginFetch ctxC1 3 { mgr := mgrC1, fetchCount := 0 }).isSome
          = true := by decide
      exact Option.isSome_iff_exists.mp hs
    obtain ⟨x, hx⟩ := h3
    have hbig : pluginFetch ctxC1 (3 + k) { mgr := mgrC1, fetchCount := 0 } =
        some x := pluginFetch_mono_le ctxC1 3 (3 + k) _ x (by omega) hx
    rw [hbig]
    have hproj : (some x).map (fun y => (y.1, y.2.fetchCount)) =
        some ({ status := 429, tag := .upstreamError }, 3) := by
      rw [← hx]
      decide
    exact hproj
  · intro fuel
    rw [show pluginFetch ctxL fuel { mgr := mgrL, fetchCount := 0 } =
        executeRequest ctxL fuel { mgr := mgrLoop0, fetchCount := 0 } aL0u 0
        from rfl]
    cases fuel with
    | zero => rfl
    | succ n =>
      rw [executeRequest_succ,
        show orchStep ctxL (fun st a r => executeRequest ctxL n st a r)
            { mgr := mgrLoop0, fetchCount := 0 } aL0u 0 =
          executeRequest ctxL n { mgr := mgrLoopA, fetchCount := 0 } aL1u 0
          from rfl]
      exact (refreshLoopNone n).1

/-- Witness for C1: the scoped bound, the budget-exhaustion return, the
single-401-retry cap, the 3-attempt scenario, and the non-terminating
refresh-failover loop observed at fuel 30, all at concrete inputs. -/
theorem claim1_witness :
    (executeRequest ctxC1 4 { mgr := mgrC1, fetchCount := 0 }
      { index := 0, refreshToken := "rt0", accountId := some "acc0" } 0).isSome
      = true ∧
    executeRequest ctxC1 (9 + 1) { mgr := mgrC1, fetchCount := 0 }
      { index := 0, refreshToken := "rt0", accountId := some "acc0" } 2 =
      some ({ status := 429, tag := .upstreamError },
        { mgr := (markRateLimited mgrC1
            { index := 0, refreshToken := "rt0", accountId := some "acc0" }
            (computeRetryAfterMs (ctxC1.upstream 0) ctxC1.now)
            ctxC1.model ctxC1.now).1,
          fetchCount := 1 }) ∧
    executeRequest { ctxC1 with upstream := fun _ => { status := 401 } } (9 + 1)
      { mgr := mgrC1, fetchCount := 0 }
      { index := 0, refreshToken := "rt0", accountId := some "acc0" } 1 =
      some ({ status := 401, tag := .upstreamError },
        { mgr := mgrC1, fetchCount := 1 }) ∧
    (pluginFetch ctxC1 3 { mgr := mgrC1, fetchCount := 0 }).map
        (fun y => (y.1, y.2.fetchCount)) =
      some ({ status := 429, tag := .upstreamError }, 3) ∧
    pluginFetch ctxL 30 { mgr := mgrL, fetchCount := 0 } = none := by
  refine ⟨?_, ?_, ?_, ?_, ?_⟩
  · exact claim1_bounded_retry_amended.1 ctxC1 4
      { mgr := mgrC1, fetchCount := 0 }
      { index := 0, refreshToken := "rt0", accountId := some "acc0" } 0
      (by decide) (by decide) (by decide)
  · exact claim1_bounded_retry_amended.2.1 ctxC1 9
      { mgr := mgrC1, fetchCount := 0 }
      { index := 0, refreshToken := "rt0", accountId := some "acc0" } 2
      (by decide) (by decide) (by decide) (by decide)
  · exact claim1_bounded_retry_amended.2.2.1
      { ctxC1 with upstream := fun _ => { status := 401 } } 9
      { mgr := mgrC1, fetchCount := 0 }
      { index := 0, refreshToken := "rt0", accountId := some "acc0" } 1
      (by decide) (by decide) (by decide) (by decide)
  · exact claim1_bounded_retry_amended.2.2.2.1 3 (by omega)
  · exact claim1_bounded_retry_amended.2.2.2.2 30

/-! ## C9 — failover recursion requires a different account -/

/-- C9: in every failover branch of `executeRequest` — token-refresh
failure, 429 with retry budget remaining, and a first 401 — when the
reselected account is absent or carries the same `index` as the current
account, the step does not recurse (for any recursion continuation `rec`):
the refresh-failure path returns the synthetic 401, and the 429/401 paths
return the upstream response (finalized to status 429 / 401). -/
theorem claim9_failover_requires_different_account :
    (∀ (ctx : OrchCtx)
       (rec : OrchState → Account → Nat → Option (OrchResponse × OrchState))
       (st : OrchState) (a : Account) (r : Nat),
      (ensureValidToken ctx.decode ctx.refreshFn st.mgr a ctx.now).1 = false →
      ((getNextAvailableAccount
          (ensureValidToken ctx.decode ctx.refreshFn st.mgr a ctx.now).2.1
          none ctx.now ctx.pid).1 = none ∨
       (getNextAvailableAccount
          (ensureValidToken ctx.decode ctx.refreshFn st.mgr a ctx.now).2.1
          none ctx.now ctx.pid).1.map (fun c => c.index) =
         some (ensureValidToken ctx.decode ctx.refreshFn st.mgr a
           ctx.now).2.2.index) →
      orchStep ctx rec st a r =
        some ({ status := 401, tag := .syntheticRefreshFailure },
              { mgr := (getNextAvailableAccount
                  (ensureValidToken ctx.decode ctx.refreshFn st.mgr a
                    ctx.now).2.1 none ctx.now ctx.pid).2,
                fetchCount := st.fetchCount }))
    ∧ (∀ (ctx : OrchCtx)
       (rec : OrchState → Account → Nat → Option (OrchResponse × OrchState))
       (st : OrchState) (a : Account) (r : Nat),
      (ensureValidToken ctx.decode ctx.refreshFn st.mgr a ctx.now).1 = true →
      strTruthy (resolveAccountId ctx.decode
        (ensureValidToken ctx.decode ctx.refreshFn st.mgr a ctx.now).2.2) = true →
      (ctx.upstream st.fetchCount).status = 429 →
      r < (markRateLimited
        (ensureValidToken ctx.decode ctx.refreshFn st.mgr a ctx.now).2.1
        (ensureValidToken ctx.decode ctx.refreshFn st.mgr a ctx.now).2.2
        (computeRetryAfterMs (ctx.upstream st.fetchCount) ctx.now)
        ctx.model ctx.now).1.accounts.length - 1 →
      ((getNextAvailableAccount (markRateLimited
          (ensureValidToken ctx.decode ctx.refreshFn st.mgr a ctx.now).2.1
          (ensureValidToken ctx.decode ctx.refreshFn st.mgr a ctx.now).2.2
          (computeRetryAfterMs (ctx.upstream st.fetchCount) ctx.now)
          ctx.model ctx.now).1 ctx.model ctx.now ctx.pid).1 = none ∨
       (getNextAvailableAccount (markRateLimited
          (ensureValidToken ctx.decode ctx.refreshFn st.mgr a ctx.now).2.1
          (ensureValidToken ctx.decode ctx.refreshFn st.mgr a ctx.now).2.2
          (computeRetryAfterMs (ctx.upstream st.fetchCount) ctx.now)
          ctx.model ctx.now).1 ctx.model ctx.now ctx.pid).1.map
            (fun c => c.index) =
         some (markRateLimited
          (ensureValidToken ctx.decode ctx.refreshFn st.mgr a ctx.now).2.1
          (ensureValidToken ctx.decode ctx.refreshFn st.mgr a ctx.now).2.2
          (computeRetryAfterMs (ctx.upstream st.fetchCount) ctx.now)
          ctx.model ctx.now).2.index) →
      orchStep ctx rec st a r =
        some ({ status := 429, tag := .upstreamError },
              { mgr := (getNextAvailableAccount (markRateLimited
                  (ensureValidToken ctx.decode ctx.refreshFn st.mgr a ctx.now).2.1
                  (ensureValidToken ctx.decode ctx.refreshFn st.mgr a ctx.now).2.2
                  (computeRetryAfterMs (ctx.upstream st.fetchCount) ctx.now)
                  ctx.model ctx.now).1 ctx.model ctx.now ctx.pid).2,
                fetchCount := st.fetchCount + 1 }))
    ∧ (∀ (ctx : OrchCtx)
       (rec : OrchState → Account → Nat → Option (OrchResponse × OrchState))
       (st : OrchState) (a : Account) (r : Nat),
      (ensureValidToken ctx.decode ctx.refreshFn st.mgr a ctx.now).1 = true →
      strTruthy (resolveAccountId ctx.decode
        (ensureValidToken ctx.decode ctx.refreshFn st.mgr a ctx.now).2.2) = true →
      (ctx.upstream st.fetchCount).status = 401 → r < 1 →
      ((getNextAvailableAccount (markRefreshFailed
          (ensureValidToken ctx.decode ctx.refreshFn st.mgr a ctx.now).2.1
          (ensureValidToken ctx.decode ctx.refreshFn st.mgr a ctx.now).2.2
          "401 Unauthorized").1 ctx.model ctx.now ctx.pid).1 = none ∨
       (getNextAvailableAccount (markRefreshFailed
          (ensureValidToken ctx.decode ctx.refreshFn st.mgr a ctx.now).2.1
          (ensureValidToken ctx.decode ctx.refreshFn st.mgr a ctx.now).2.2
          "401 Unauthorized").1 ctx.model ctx.now ctx.pid).1.map
            (fun c => c.index) =
         some (markRefreshFailed
          (ensureValidToken ctx.decode ctx.refreshFn st.mgr a ctx.now).2.1
          (ensureValidToken ctx.decode ctx.refreshFn st.mgr a ctx.now).2.2
          "401 Unauthorized").2.index) →
      orchStep ctx rec st a r =
        some ({ status := 401, tag := .upstreamError },
              { mgr := (getNextAvailableAccount (markRefreshFailed
                  (ensureValidToken ctx.decode ctx.refreshFn st.mgr a ctx.now).2.1
                  (ensureValidToken ctx.decode ctx.refreshFn st.mgr a ctx.now).2.2
                  "401 Unauthorized").1 ctx.model ctx.now ctx.pid).2,
                fetchCount := st.fetchCount + 1 })) := by
  refine ⟨?_, ?_, ?_⟩
  · intro ctx rec st a r h1 hsame
    simp only [orchStep]
    rw [if_pos h1]
    cases hsel : (getNextAvailableAccount
        (ensureValidToken ctx.decode ctx.refreshFn st.mgr a ctx.now).2.1
        none ctx.now ctx.pid).1 with
    | none => rfl
    | some n =>
      rcases hsame with hnone | hidx
      · rw [hsel] at hnone; cases hnone
      · rw [hsel] at hidx
        simp at hidx
        dsimp only
        rw [if_pos hidx]
  · intro ctx rec st a r hvalid hid h429 hbudget hsame
    have hfin : finalizeResponse (ctx.upstream st.fetchCount) =
        { status := 429, tag := .upstreamError } := by
      simp [finalizeResponse, respOk, handleErrorStatus, h429]
    simp only [orchStep]
    rw [if_neg (by simp [hvalid]), if_neg (by simp [hid]), if_pos h429,
      if_pos hbudget]
    cases hsel : (getNextAvailableAccount (markRateLimited
        (ensureValidToken ctx.decode ctx.refreshFn st.mgr a ctx.now).2.1
        (ensureValidToken ctx.decode ctx.refreshFn st.mgr a ctx.now).2.2
        (computeRetryAfterMs (ctx.upstream st.fetchCount) ctx.now)
        ctx.model ctx.now).1 ctx.model ctx.now ctx.pid).1 with
    | none => rw [hfin]
    | some n =>
      rcases hsame with hnone | hidx
      · rw [hsel] at hnone; cases hnone
      · rw [hsel] at hidx
        simp at hidx
        dsimp only
        rw [if_pos hidx, hfin]
  · intro ctx rec st a r hvalid hid h401 hr hsame
    have hfin : finalizeResponse (ctx.upstream st.fetchCount) =
        { status := 401, tag := .upstreamError } := by
      simp [finalizeResponse, respOk, handleErrorStatus, h401]
    simp only [orchStep]
    rw [if_neg (by simp [hvalid]), if_neg (by simp [hid]),
      if_neg (by rw [h401]; decide), if_pos ⟨h401, hr⟩]
    cases hsel : (getNextAvailableAccount (markRefreshFailed
        (ensureValidToken ctx.decode ctx.refreshFn st.mgr a ctx.now).2.1
        (ensureValidToken ctx.decode ctx.refreshFn st.mgr a ctx.now).2.2
        "401 Unauthorized").1 ctx.model ctx.now ctx.pid).1 with
    | none => rw [hfin]
    | some n =>
      rcases hsame with hnone | hidx
      · rw [hsel] at hnone; cases hnone
      · rw [hsel] at hidx
        simp at hidx
        dsimp only
        rw [if_pos hidx, hfin]

/-- A context whose token refresh always fails (for the C9 refresh path). -/
def ctxW1 : OrchCtx :=
  { now := 1000000, pid := 0, decode := fun _ => none,
    refreshFn := fun _ => .failed,
    upstream := fun _ => { status := 200 }, model := none }

def aW1 : Account := { index := 0, refreshToken := "rt", expires := some 5 }

def mgrW1 : AccountManager :=
  { accounts := [aW1], activeIndex := 0, roundRobinCursor := 0,
    strategyInitialized := false, config := DEFAULT_MULTI_ACCOUNT_CONFIG }

/-- A 429-upstream context over a two-account pool whose second account is
at the failure ceiling (reselection can only return the current account). -/
def ctxW2 : OrchCtx :=
  { now := 1000000, pid := 0, decode := fun _ => none,
    refreshFn := fun _ => .failed,
    upstream := fun _ => { status := 429 }, model := some "m" }

def aW2 : Account := { index := 0, refreshToken := "r0", accountId := some "acc0" }

def aW2b : Account :=
  { index := 1, refreshToken := "r1", consecutiveFailures := 3 }

def mgrW2 : AccountManager :=
  { accounts := [aW2, aW2b],
    activeIndex := 0, roundRobinCursor := 0, strategyInitialized := false,
    config := DEFAULT_MULTI_ACCOUNT_CONFIG }

/-- A 401-upstream context over a single-account pool. -/
def ctxW3 : OrchCtx :=
  { now := 1000000, pid := 0, decode := fun _ => none,
    refreshFn := fun _ => .failed,
    upstream := fun _ => { status := 401 }, model := none }

def mgrW3 : AccountManager :=
  { accounts := [aW2], activeIndex := 0, roundRobinCursor := 0,
    strategyInitialized := false, config := DEFAULT_MULTI_ACCOUNT_CONFIG }

/-- Witness for C9: all three same-account failover leaves at concrete
inputs — refresh failure on a one-account pool, a 429 with budget left but
only the same account reselectable, and a first 401 on a one-account pool. -/
theorem claim9_witness :
    orchStep ctxW1 (fun _ _ _ => none) { mgr := mgrW1, fetchCount := 0 } aW1 0 =
      some ({ status := 401, tag := .syntheticRefreshFailure },
            { mgr := (getNextAvailableAccount
                (ensureValidToken ctxW1.decode ctxW1.refreshFn mgrW1 aW1
                  ctxW1.now).2.1 none ctxW1.now ctxW1.pid).2,
              fetchCount := 0 }) ∧
    orchStep ctxW2 (fun _ _ _ => none) { mgr := mgrW2, fetchCount := 0 } aW2 0 =
      some ({ status := 429, tag := .upstreamError },
            { mgr := (getNextAvailableAccount (markRateLimited
                (ensureValidToken ctxW2.decode ctxW2.refreshFn mgrW2 aW2
                  ctxW2.now).2.1
                (ensureValidToken ctxW2.decode ctxW2.refreshFn mgrW2 aW2
                  ctxW2.now).2.2
                (computeRetryAfterMs (ctxW2.upstream 0) ctxW2.now)
                ctxW2.model ctxW2.now).1 ctxW2.model ctxW2.now ctxW2.pid).2,
              fetchCount := 1 }) ∧
    orchStep ctxW3 (fun _ _ _ => none) { mgr := mgrW3, fetchCount := 0 } aW2 0 =
      some ({ status := 401, tag := .upstreamError },
            { mgr := (getNextAvailableAccount (markRefreshFailed
                (ensureValidToken ctxW3.decode ctxW3.refreshFn mgrW3 aW2
                  ctxW3.now).2.1
                (ensureValidToken ctxW3.decode ctxW3.refreshFn mgrW3 aW2
                  ctxW3.now).2.2
                "401 Unauthorized").1 ctxW3.model ctxW3.now ctxW3.pid).2,
              fetchCount := 1 }) := by
  refine ⟨?_, ?_, ?_⟩
  · exact claim9_failover_requires_different_account.1 ctxW1 (fun _ _ _ => none)
      { mgr := mgrW1, fetchCount := 0 } aW1 0 (by decide) (by decide)
  · exact claim9_failover_requires_different_account.2.1 ctxW2 (fun _ _ _ => none)
      { mgr := mgrW2, fetchCount := 0 } aW2 0 (by decide) (by decide) (by decide)
      (by decide) (by decide)
  · exact claim9_failover_requires_different_account.2.2 ctxW3 (fun _ _ _ => none)
      { mgr := mgrW3, fetchCount := 0 } aW2 0 (by decide) (by decide) (by decide)
      (by decide) (by decide)

end OCMA
